import Mathlib

/-!
Verification development for the Search-Engine repository.

The Python sources (`bfs_crawler.py`, `tokenizer.py`, `indexer.py`, `searcher.py`,
`correlation.py`, `keyword_extractor.py`, `gui.py`) are shallowly embedded below.
Pure functions become Lean functions; Python dicts become association lists with
first-match lookup and replace-or-append update (preserving insertion order, as
CPython dicts do); functions that can raise become `Option`/`Except`-valued.
Floating point arithmetic is modelled over `ℝ`.
-/

set_option maxRecDepth 4000

deriving instance DecidableEq for Except

/-! ## Python string primitives

Models of the CPython `str` operations the sources use, over `List Char`.
All inputs in this development are ASCII, where these models agree with CPython.
-/

namespace Py

/-- Characters removed by Python `str.strip()` (ASCII whitespace). -/
def wsChar (c : Char) : Bool :=
  c == ' ' || c == '\t' || c == '\n' || c == '\r' || c == '\x0b' || c == '\x0c'

/-- Python `str.lower()` (ASCII). -/
def lower (s : String) : String := String.mk (s.data.map Char.toLower)

/-- Python `str.strip()` with no arguments. -/
def strip (s : String) : String :=
  String.mk (((s.data.dropWhile wsChar).reverse.dropWhile wsChar).reverse)

/-- Python `str.lstrip(chars)`: drop every leading character in `chars`. -/
def lstripChars (s : String) (chars : List Char) : String :=
  String.mk (s.data.dropWhile (fun c => chars.contains c))

/-- Python `str.rstrip(chars)`. -/
def rstripChars (s : String) (chars : List Char) : String :=
  String.mk ((s.data.reverse.dropWhile (fun c => chars.contains c)).reverse)

/-- Python `str.startswith(p)`. -/
def startsWith (s p : String) : Bool := p.data.isPrefixOf s.data

/-- Python `str.endswith(p)`. -/
def endsWith (s p : String) : Bool := p.data.reverse.isPrefixOf s.data.reverse

/-- Core loop of `str.split(sep)`: scan left to right, cutting at each
non-overlapping occurrence of `sep`.  `fuel` only forces termination; it is
always at least the number of remaining characters plus one. -/
def splitCore (sep : List Char) : Nat → List Char → List Char → List String
  | 0, cs, cur => [String.mk (cur.reverse ++ cs)]
  | _ + 1, [], cur => [String.mk cur.reverse]
  | fuel + 1, c :: rest, cur =>
    if sep.isPrefixOf (c :: rest) then
      String.mk cur.reverse :: splitCore sep fuel (List.drop sep.length (c :: rest)) []
    else
      splitCore sep fuel rest (c :: cur)

/-- Python `str.split(sep)` for a non-empty separator. -/
def split (s sep : String) : List String :=
  if sep.data.isEmpty then [s] else splitCore sep.data (s.data.length + 1) s.data []

/-- Python `sub in s` (substring containment). -/
def containsSub (s sub : String) : Bool := (split s sub).length != 1

/-- Core loop of no-argument `str.split()`: whitespace runs separate tokens,
empty tokens are dropped. -/
def splitWsCore : Nat → List Char → List String
  | 0, _ => []
  | fuel + 1, cs =>
    let cs := cs.dropWhile wsChar
    match cs with
    | [] => []
    | cs =>
      let tok := cs.takeWhile (fun c => !wsChar c)
      String.mk tok :: splitWsCore fuel (cs.drop tok.length)

/-- Python `str.split()` with no arguments. -/
def splitWs (s : String) : List String := splitWsCore (s.data.length + 1) s.data

/-- Python `s[1:-1]`. -/
def dropFirstLast (s : String) : String := String.mk ((s.data.drop 1).dropLast)

/-- Python `s.rfind(c)`: index of the last occurrence, or `none`. -/
def rfindChar (s : String) (c : Char) : Option Nat :=
  match s.data.reverse.findIdx? (fun d => d == c) with
  | none => none
  | some j => some (s.data.length - 1 - j)

end Py

/-! ## Association lists (CPython dict model)

CPython dicts preserve insertion order; assignment to an existing key replaces
the value in place.  `lookupA` is dict read, `setA` is dict assignment. -/

/-- First-match lookup in an association list (Python `d[k]` / `k in d`). -/
def lookupA {α : Type} : List (String × α) → String → Option α
  | [], _ => none
  | (k, v) :: rest, key => if k = key then some v else lookupA rest key

/-- Replace-or-append update (Python `d[k] = v`). -/
def setA {α : Type} : List (String × α) → String → α → List (String × α)
  | [], key, v => [(key, v)]
  | (k, w) :: rest, key, v =>
    if k = key then (key, v) :: rest else (k, w) :: setA rest key v

/-! ## `bfs_crawler.py`: the link normalizer

`normalize_path(current_path, link)` resolves a raw hyperlink against the path
of the containing document, returning `none` for a rejected link.  The helpers
`dirname`, `join` and `normpath` model CPython's `posixpath` functions of the
same names, which the source calls. -/

namespace BfsCrawler

/-- CPython `posixpath.dirname`. -/
def dirname (p : String) : String :=
  let i : Nat :=
    match Py.rfindChar p '/' with
    | none => 0
    | some j => j + 1
  let head := p.data.take i
  if head ≠ [] ∧ head.any (fun c => c ≠ '/') then
    String.mk ((head.reverse.dropWhile (fun c => c == '/')).reverse)
  else
    String.mk head

/-- CPython `posixpath.join` for two arguments. -/
def join (a b : String) : String :=
  if Py.startsWith b "/" then b
  else if a = "" ∨ Py.endsWith a "/" then a ++ b
  else a ++ "/" ++ b

/-- CPython `posixpath.normpath`. -/
def normpath (p : String) : String :=
  if p = "" then "."
  else
    let initialSlashes : Nat :=
      if Py.startsWith p "/" then
        (if Py.startsWith p "//" ∧ ¬ (Py.startsWith p "///" = true) then 2 else 1)
      else 0
    let comps := Py.split p "/"
    let newComps := comps.foldl (fun acc comp =>
      if comp = "" ∨ comp = "." then acc
      else if comp ≠ ".." ∨ (initialSlashes = 0 ∧ acc = []) ∨ (acc ≠ [] ∧ acc.getLast? = some "..") then
        acc ++ [comp]
      else if acc ≠ [] then acc.dropLast
      else acc) []
    let joined := String.intercalate "/" newComps
    let path := String.mk (List.replicate initialSlashes '/') ++ joined
    if path = "" then "." else path

/-- `bfs_crawler.normalize_path`: resolve `link` against `current_path`;
`none` models Python's `return None` (rejected link). -/
def normalize_path (current_path link0 : String) : Option String :=
  let l1 := (Py.split link0 "#").headD ""
  let l2 := (Py.split l1 "?").headD ""
  let link := Py.strip l2
  if link = "" then none
  else if ["http://", "https://", "mailto:", "ftp://", "javascript:", "tel:"].any
      (fun p => Py.startsWith link p) then none
  else
    let current_dir := dirname current_path
    let normalized :=
      if Py.startsWith link "/" then Py.lstripChars link ['/']
      else
        let combined := if current_dir ≠ "" then join current_dir link else link
        normpath combined
    let normalized2 := Py.lstripChars normalized ['.', '/']
    if Py.startsWith normalized2 ".." then none
    else some normalized2

end BfsCrawler

/-! ## `searcher.py`: the query engine

The inverted index consumed by the search functions: a dict
`term -> \x7b 'df', 'docs' \x7d` where each posting dict carries
`doc_id`, `term_freq`, `tf_idf`, `positions`.  The `tf_idf` values are
opaque payload for every search claim (no search branch compares them),
so the search-layer postings carry them as `ℚ`; the indexer that produces
them is embedded separately over `ℝ` below. -/

namespace Searcher

/-- Insert `x` after every element `y` with `le y x` (stable insertion). -/
def insSorted {α : Type} (le : α → α → Bool) (x : α) : List α → List α
  | [] => [x]
  | y :: ys => if le y x then y :: insSorted le x ys else x :: y :: ys

/-- Stable sort modelling Python `sorted`: elements are inserted in order,
each after any equal elements already placed. -/
def pySorted {α : Type} (le : α → α → Bool) (l : List α) : List α :=
  l.foldl (fun acc x => insSorted le x acc) []

/-- One posting (an element of `reverse_index[term]['docs']`). -/
structure DocEntry where
  doc_id : String
  term_freq : Nat
  tf_idf : ℚ
  positions : List Nat
deriving DecidableEq

/-- One term entry (`reverse_index[term]`). -/
structure TermEntry where
  df : Nat
  docs : List DocEntry
deriving DecidableEq

/-- The inverted index (`reverse_index`). -/
abbrev ReverseIndex := List (String × TermEntry)

/-- One entry of the document map (`document_map[doc_id]`); search layer copy. -/
structure DocVec where
  vector_length : ℝ

/-- `searcher.get_doc_ids`: the doc ids holding a posting for `term`
(Python returns a set; the list below is its members in posting order). -/
def get_doc_ids (idx : ReverseIndex) (term : String) : List String :=
  match lookupA idx term with
  | some e => e.docs.map (fun d => d.doc_id)
  | none => []

/-- `searcher.get_doc_data`: first posting for `(term, doc_id)`, if any. -/
def get_doc_data (idx : ReverseIndex) (term doc_id : String) : Option DocEntry :=
  match lookupA idx term with
  | some e => e.docs.find? (fun d => d.doc_id == doc_id)
  | none => none

/-- `searcher.aggregate_terms`: summed tf-idf, summed raw frequency, merged
sorted positions, and the list of matched terms. -/
def aggregate_terms (idx : ReverseIndex) (terms : List String) (doc_id : String) :
    ℚ × Nat × List Nat × List String :=
  let z := terms.foldl (fun (acc : ℚ × Nat × List Nat × List String) term =>
    match get_doc_data idx term doc_id with
    | some doc =>
      (acc.1 + doc.tf_idf, acc.2.1 + doc.term_freq, acc.2.2.1 ++ doc.positions,
       acc.2.2.2 ++ [term])
    | none => acc) (0, 0, [], [])
  (z.1, z.2.1, pySorted (fun a b => decide (a ≤ b)) z.2.2.1, z.2.2.2)

/-- Inner loop of `check_proximity`: scan `positions` in stored order and
return the first one strictly after `current` and within `proximity` of it
(the loop body `if pos > current_pos and pos <= current_pos + proximity`,
with `break` on the first hit). -/
def findNext (positions : List Nat) (current proximity : Nat) : Option Nat :=
  match positions with
  | [] => none
  | p :: rest =>
    if current < p ∧ p ≤ current + proximity then some p else findNext rest current proximity

/-- Middle loop of `check_proximity`: starting from position `current`, chase
each remaining word through `findNext`, committing to the position it returns. -/
def chainFrom : List (List Nat) → Nat → Nat → Bool
  | [], _, _ => true
  | ps :: rest, current, proximity =>
    match findNext ps current proximity with
    | some p => chainFrom rest p proximity
    | none => false

/-- `searcher.check_proximity` on the dict's position-list values, in key
order.  Documents with fewer than two distinct phrase words always pass. -/
def check_proximity (wordPositions : List (List Nat)) (proximity : Nat) : Bool :=
  if wordPositions.length < 2 then true
  else
    match wordPositions with
    | [] => true
    | ps :: rest => ps.any (fun pos1 => chainFrom rest pos1 proximity)

/-- Keys of the dict comprehension `\x7bword: ... for word in words\x7d`:
first-occurrence order, duplicates collapsed. -/
def dedupFirst (ws : List String) : List String :=
  ws.foldl (fun acc w => if w ∈ acc then acc else acc ++ [w]) []

/-- Tagged search result record.  `enhanced_search` returns dicts of two
shapes: term-style results and vector-space results. -/
inductive SearchResult where
  | term (doc_id : String) (term_freq : Nat) (tf_idf : ℚ) (positions : List Nat)
      (matched_term : String)
  | vector (doc_id : String) (similarity : ℝ) (matched_terms : List String)

/-- The `doc_id` field shared by both result shapes. -/
def SearchResult.doc_id : SearchResult → String
  | .term d _ _ _ _ => d
  | .vector d _ _ => d

/-- The doc ids of a search outcome (`none` outcomes contribute nothing). -/
def resultDocIds (r : Option (List SearchResult) × String) : List String :=
  match r.1 with
  | none => []
  | some l => l.map SearchResult.doc_id

/-- Code-point lexicographic comparison on char lists. -/
def strLeB : List Char → List Char → Bool
  | [], _ => true
  | _ :: _, [] => false
  | a :: as, b :: bs =>
    if a.toNat < b.toNat then true
    else if b.toNat < a.toNat then false
    else strLeB as bs

/-- String comparison used to model Python `sorted` on `str`
(code-point lexicographic, as CPython compares `str`). -/
def strLe (a b : String) : Bool := strLeB a.data b.data

/-- The position lists `word_positions` that `phrase_search` hands to
`check_proximity` for one document: the stored positions of each distinct
phrase word (Python indexes the posting found by `get_doc_data`, which is
never `None` for a document drawn from `common_docs`). -/
def wordPositionsFor (idx : ReverseIndex) (words : List String) (doc_id : String) :
    List (List Nat) :=
  (dedupFirst words).map (fun w =>
    match get_doc_data idx w doc_id with
    | some doc => doc.positions
    | none => [])

/-- The result record `phrase_search` appends for one matching document. -/
def phraseResult (idx : ReverseIndex) (words : List String) (proximity : Nat)
    (doc_id : String) : SearchResult :=
  let z := aggregate_terms idx words doc_id
  SearchResult.term doc_id z.2.1 z.1 z.2.2.1
    ("\"" ++ String.intercalate " " words ++ "\" (within " ++ toString proximity ++ " chars)")

/-- The (zero or one) result `phrase_search` emits for one document of
`common_docs`: appended exactly when `check_proximity` accepts it. -/
def phraseDocResults (idx : ReverseIndex) (words : List String) (proximity : Nat)
    (doc_id : String) : List SearchResult :=
  if check_proximity (wordPositionsFor idx words doc_id) proximity then
    [phraseResult idx words proximity doc_id]
  else []

/-- `searcher.phrase_search`.  The `words = []` case models Python's
`doc_sets[0]` `IndexError` as a `none` outcome; it is unreachable from
`enhanced_search`, which always passes at least two words. -/
def phrase_search (idx : ReverseIndex) (words : List String) (proximity : Nat) :
    Option (List SearchResult) × String :=
  let missing := words.filter (fun w => (lookupA idx w).isNone)
  if missing ≠ [] then
    (some [], "No documents found. Words not in index: " ++ String.intercalate ", " missing)
  else
    match words with
    | [] => (none, "IndexError")
    | w0 :: wrest =>
      let common := dedupFirst ((get_doc_ids idx w0).filter (fun d =>
        wrest.all (fun w => d ∈ get_doc_ids idx w)))
      if common = [] then
        (some [], "No documents found containing all words: " ++ String.intercalate ", " words)
      else
        let phrase := String.intercalate " " words
        let results := (pySorted strLe common).foldl (fun acc doc_id =>
          acc ++ phraseDocResults idx words proximity doc_id) []
        if results.isEmpty then
          (some [], "No documents found with phrase \x27" ++ phrase ++ "\x27 within " ++
            toString proximity ++ " characters")
        else
          (some results, "Found " ++ toString results.length ++
            " document(s) containing phrase \x27" ++ phrase ++ "\x27 (within " ++
            toString proximity ++ " characters)")

/-- The OR branch's per-document step: append the document under the current
term unless it was already produced under an earlier term (the `found_docs`
seen-set). -/
def orStep (idx : ReverseIndex) (term : String) (acc : List SearchResult × List String)
    (doc_id : String) : List SearchResult × List String :=
  if doc_id ∉ acc.2 then
    match get_doc_data idx term doc_id with
    | some doc =>
      (acc.1 ++ [SearchResult.term doc_id doc.term_freq doc.tf_idf doc.positions term],
       acc.2 ++ [doc_id])
    | none => acc
  else acc

/-- The `" or "` branch of `enhanced_search`. -/
def or_branch (idx : ReverseIndex) (terms : List String) :
    Option (List SearchResult) × String :=
  if terms.length < 2 then
    (none, "Invalid OR query format. Use: \x27term1 or term2\x27 or \x27term1 or term2 or term3\x27")
  else
    let z := terms.foldl (fun (acc : List SearchResult × List String) term =>
      (get_doc_ids idx term).foldl (orStep idx term) acc) ([], [])
    let terms_str := String.intercalate " OR " (terms.map (fun t => "\x27" ++ t ++ "\x27"))
    (some z.1, "Found " ++ toString z.1.length ++ " document(s) containing " ++ terms_str)

/-- The result record the BUT branch appends for one document of the
difference set (the posting found by `get_doc_data` is never `None` for a
document drawn from term 1's doc set). -/
def butDocResults (idx : ReverseIndex) (term1 term2 doc_id : String) : List SearchResult :=
  match get_doc_data idx term1 doc_id with
  | some doc =>
    [SearchResult.term doc_id doc.term_freq doc.tf_idf doc.positions
      (term1 ++ " (but not " ++ term2 ++ ")")]
  | none => []

/-- The `" but "` branch of `enhanced_search`. -/
def but_branch (idx : ReverseIndex) (terms : List String) :
    Option (List SearchResult) × String :=
  match terms with
  | [term1, term2] =>
    if (lookupA idx term1).isNone then
      (some [], "No documents found. First term \x27" ++ term1 ++ "\x27 not in index")
    else
      let result_docs := dedupFirst ((get_doc_ids idx term1).filter (fun d =>
        d ∉ get_doc_ids idx term2))
      if result_docs = [] then
        (some [], "No documents found containing \x27" ++ term1 ++ "\x27 but not \x27" ++
          term2 ++ "\x27")
      else
        let results := (pySorted strLe result_docs).foldl (fun acc doc_id =>
          acc ++ butDocResults idx term1 term2 doc_id) []
        (some results, "Found " ++ toString results.length ++ " document(s) containing \x27" ++
          term1 ++ "\x27 but not \x27" ++ term2 ++ "\x27")
  | _ => (none, "Invalid BUT query format. Use: \x27term1 but term2\x27")

/-- The result record the AND branch appends for one document of the
intersection. -/
def andResult (idx : ReverseIndex) (terms : List String) (doc_id : String) : SearchResult :=
  let z := aggregate_terms idx terms doc_id
  SearchResult.term doc_id z.2.1 z.1 z.2.2.1 (String.intercalate ", " z.2.2.2)

/-- The `" and "` branch of `enhanced_search`. -/
def and_branch (idx : ReverseIndex) (terms : List String) :
    Option (List SearchResult) × String :=
  if terms.length < 2 then
    (none, "Invalid AND query format. Use: \x27term1 and term2\x27 or \x27term1 and term2 and term3\x27")
  else
    let missing := terms.filter (fun t => (lookupA idx t).isNone)
    if missing ≠ [] then
      (some [], "No documents found. Terms not in index: " ++ String.intercalate ", " missing)
    else
      match terms with
      | [] => (none, "")
      | t0 :: trest =>
        let common := dedupFirst ((get_doc_ids idx t0).filter (fun d =>
          trest.all (fun t => d ∈ get_doc_ids idx t)))
        if common = [] then
          (some [], "No documents found containing all terms: " ++ String.intercalate ", " terms)
        else
          let results := (pySorted strLe common).foldl (fun acc doc_id =>
            acc ++ [andResult idx terms doc_id]) []
          let terms_str := String.intercalate " AND " (terms.map (fun t => "\x27" ++ t ++ "\x27"))
          (some results, "Found " ++ toString results.length ++ " document(s) containing " ++
            terms_str)

/-- The single-term branch of `enhanced_search`. -/
def single_branch (idx : ReverseIndex) (query : String) :
    Option (List SearchResult) × String :=
  match lookupA idx query with
  | some entry =>
    let results := entry.docs.map (fun doc =>
      SearchResult.term doc.doc_id doc.term_freq doc.tf_idf doc.positions query)
    (some results, "Found " ++ toString results.length ++ " document(s) containing \x27" ++
      query ++ "\x27")
  | none => (some [], "No documents found containing \x27" ++ query ++ "\x27")

open scoped Classical in
/-- `searcher.vector_space_search`: cosine-similarity ranking over `ℝ`. -/
noncomputable def vector_space_search (idx : ReverseIndex) (dm : List (String × DocVec))
    (query_terms : List String) : Option (List SearchResult) × String :=
  let total_docs := dm.length
  let query_term_counts := query_terms.foldl
    (fun (acc : List (String × Nat)) term => setA acc term ((lookupA acc term).getD 0 + 1)) []
  let max_freq_in_query := (query_term_counts.map (fun p => p.2)).foldl Nat.max 0
  let query_vector := query_term_counts.foldl
    (fun (qv : List (String × ℝ)) p =>
      match lookupA idx p.1 with
      | some e =>
        qv ++ [(p.1, ((p.2 : ℝ) / (max_freq_in_query : ℝ)) *
          (Real.logb 2 ((total_docs : ℝ) / ((e.df : ℝ) + 1)) + 1))]
      | none => qv) []
  if query_vector.isEmpty then (some [], "No query terms found in index")
  else
    let query_vector_length := Real.sqrt ((query_vector.map (fun p => p.2 ^ 2)).sum)
    let similarities := dm.foldl (fun (acc : List SearchResult) p =>
      let dot := query_vector.foldl (fun (s : ℝ) q =>
        match get_doc_data idx q.1 p.1 with
        | some doc => s + q.2 * (doc.tf_idf : ℝ)
        | none => s) 0
      if 0 < p.2.vector_length ∧ 0 < query_vector_length then
        let cos := dot / (p.2.vector_length * query_vector_length)
        if 0 < cos then
          acc ++ [SearchResult.vector p.1 cos (query_vector.map (fun q => q.1))]
        else acc
      else acc) []
    let sorted := pySorted (fun a b =>
      match a, b with
      | .vector _ sa _, .vector _ sb _ => decide (sb ≤ sa)
      | _, _ => true) similarities
    (some sorted, "Found " ++ toString sorted.length ++ " document(s) using vector space model")

/-- Body of `enhanced_search` after the quoted-phrase test: the
`" or "` / `" but "` / `" and "` / free-text priority chain. -/
noncomputable def searchBody (idx : ReverseIndex) (query : String)
    (document_map : Option (List (String × DocVec))) : Option (List SearchResult) × String :=
  if Py.containsSub query " or " then
    or_branch idx ((Py.split query " or ").map Py.strip)
  else if Py.containsSub query " but " then
    but_branch idx ((Py.split query " but ").map Py.strip)
  else if Py.containsSub query " and " then
    and_branch idx ((Py.split query " and ").map Py.strip)
  else
    let words := Py.splitWs query
    if words.length > 1 then
      match document_map with
      | some dm => vector_space_search idx dm words
      | none => phrase_search idx words 100
    else single_branch idx query

/-- `searcher.enhanced_search`: strip and lowercase the query, take the
quoted-phrase branch when it wraps at least two words (otherwise continue
with the unquoted text), then dispatch through `searchBody`. -/
noncomputable def enhanced_search (idx : ReverseIndex) (query0 : String)
    (document_map : Option (List (String × DocVec)) := none) :
    Option (List SearchResult) × String :=
  let query := Py.lower (Py.strip query0)
  if (Py.startsWith query "\"" && Py.endsWith query "\"") ||
      (Py.startsWith query "\x27" && Py.endsWith query "\x27") then
    let phrase_query := Py.strip (Py.dropFirstLast query)
    let words := Py.splitWs phrase_query
    if words.length > 1 then phrase_search idx words 100
    else searchBody idx phrase_query document_map
  else searchBody idx query document_map

end Searcher

/-! ## `tokenizer.py`: HTML text extraction and word tokenization

`HTMLTextExtractor` subclasses CPython's `html.parser.HTMLParser`.  The
stdlib base class buffers unparsed input in `self.rawdata` across `feed`
calls; parsing turns the buffer into start-tag / end-tag / character-data
events delivered to the `handle_*` methods.  The lexer below models that
behaviour for the HTML subset exercised in this file: plain text, tags
delimited by `<`...`>` with no `>` inside attribute values, `!`-declarations
skipped whole, and an unterminated `<...` retained in the buffer exactly as
the stdlib parser retains incomplete data.  `HTMLTextExtractor.reset_state`
resets only the fields the subclass itself defines; the inherited buffer
(`rawdata`) survives it, as in the source. -/

namespace Tokenizer

/-- Model of `html.unescape` restricted to the five predefined entities.
CPython resolves the full HTML5 named-entity table; no theorem below
depends on entity decoding (all concrete inputs are entity-free). -/
def unescapeCore : Nat → List Char → List Char
  | 0, cs => cs
  | _ + 1, [] => []
  | fuel + 1, c :: rest =>
    if c == '&' then
      if "amp;".data.isPrefixOf rest then '&' :: unescapeCore fuel (rest.drop 4)
      else if "lt;".data.isPrefixOf rest then '<' :: unescapeCore fuel (rest.drop 3)
      else if "gt;".data.isPrefixOf rest then '>' :: unescapeCore fuel (rest.drop 3)
      else if "quot;".data.isPrefixOf rest then '"' :: unescapeCore fuel (rest.drop 5)
      else if "#39;".data.isPrefixOf rest then Char.ofNat 39 :: unescapeCore fuel (rest.drop 4)
      else c :: unescapeCore fuel rest
    else c :: unescapeCore fuel rest

/-- `html.unescape` (restricted model, see `unescapeCore`). -/
def unescape (s : String) : String := String.mk (unescapeCore (s.data.length + 1) s.data)

/-- Parsing events the stdlib parser delivers to its handler methods.
Attribute values are `none` for bare attributes (Python's `None`). -/
inductive HEvent where
  | tagStart (name : String) (attrs : List (String × Option String))
  | tagEnd (name : String)
  | chars (s : String)
deriving DecidableEq

/-- ASCII letter test via code points. -/
def isAsciiLetter (c : Char) : Bool :=
  ((97 ≤ c.toNat && c.toNat ≤ 122) || (65 ≤ c.toNat && c.toNat ≤ 90))

/-- ASCII digit test via code points. -/
def isAsciiDigit (c : Char) : Bool := (48 ≤ c.toNat && c.toNat ≤ 57)

/-- Characters allowed in a tag name. -/
def isTagNameChar (c : Char) : Bool := isAsciiLetter c || isAsciiDigit c

/-- Attribute parsing inside a tag: sequences of `name`, `name=value`,
`name="value"`, `name='value'`; attribute values are entity-unescaped as
the stdlib parser does. -/
def lexAttrs : Nat → List Char → List (String × Option String)
  | 0, _ => []
  | fuel + 1, cs =>
    let cs := cs.dropWhile (fun c => Py.wsChar c || c == '/')
    match cs with
    | [] => []
    | cs =>
      let name := cs.takeWhile (fun c => !(Py.wsChar c) && c != '=' && c != '/')
      if name.isEmpty then lexAttrs fuel (cs.drop 1)
      else
        let cs1 := cs.drop name.length
        match cs1 with
        | '=' :: cs2 =>
          match cs2 with
          | '"' :: cs3 =>
            let v := cs3.takeWhile (fun c => c != '"')
            (Py.lower (String.mk name), some (unescape (String.mk v))) ::
              lexAttrs fuel ((cs3.drop v.length).drop 1)
          | q :: cs3 =>
            if q == Char.ofNat 39 then
              let v := cs3.takeWhile (fun c => c.toNat != 39)
              (Py.lower (String.mk name), some (unescape (String.mk v))) ::
                lexAttrs fuel ((cs3.drop v.length).drop 1)
            else
              let v := cs2.takeWhile (fun c => !(Py.wsChar c))
              (Py.lower (String.mk name), some (unescape (String.mk v))) ::
                lexAttrs fuel (cs2.drop v.length)
          | [] => [(Py.lower (String.mk name), some "")]
        | _ =>
          (Py.lower (String.mk name), none) :: lexAttrs fuel cs1

/-- The lexer: consume complete constructs from the front of the buffer,
returning the delivered events and the unconsumed tail (kept in `rawdata`).
An incomplete trailing `<...` with no closing `>` is not consumed. -/
def lexCore : Nat → List Char → List HEvent × List Char
  | 0, cs => ([], cs)
  | _ + 1, [] => ([], [])
  | fuel + 1, c :: rest =>
    if c == '<' then
      let tagContent := rest.takeWhile (fun d => d != '>')
      let after := rest.drop tagContent.length
      match after with
      | [] => ([], c :: rest)
      | _ :: afterGt =>
        let z := lexCore fuel afterGt
        match tagContent with
        | '/' :: nm =>
          (HEvent.tagEnd (Py.lower (String.mk (nm.takeWhile isTagNameChar))) :: z.1, z.2)
        | '!' :: _ => z
        | nm =>
          let name := nm.takeWhile isTagNameChar
          (HEvent.tagStart (Py.lower (String.mk name))
            (lexAttrs (nm.length + 1) (nm.drop name.length)) :: z.1, z.2)
    else
      let text := (c :: rest).takeWhile (fun d => d != '<')
      let z := lexCore fuel ((c :: rest).drop text.length)
      (HEvent.chars (String.mk text) :: z.1, z.2)

/-- The state of `tokenizer.HTMLTextExtractor`.  The first four fields are
the ones `__init__`/`reset_state` assign; `rawdata` is the inherited
`html.parser.HTMLParser` input buffer. -/
structure HTMLTextExtractor where
  text_parts : List (String × Nat)
  urls : List String
  current_skip : Option String
  position : Nat
  rawdata : String
deriving DecidableEq

/-- A freshly constructed `HTMLTextExtractor()`. -/
def HTMLTextExtractor.init : HTMLTextExtractor :=
  { text_parts := [], urls := [], current_skip := none, position := 0, rawdata := "" }

/-- Python truthiness of an optional attribute value (`and attr_value`):
`None` and the empty string are falsy. -/
def truthy : Option String → Bool
  | none => false
  | some s => !s.isEmpty

/-- `HTMLTextExtractor.handle_starttag`. -/
def handle_starttag (st : HTMLTextExtractor) (tag : String)
    (attrs : List (String × Option String)) : HTMLTextExtractor :=
  let st :=
    if tag = "a" then
      attrs.foldl (fun st a =>
        if a.1 = "href" ∧ truthy a.2 then { st with urls := st.urls ++ [a.2.getD ""] }
        else st) st
    else st
  if tag ∈ ["script", "style", "noscript"] then { st with current_skip := some tag }
  else st

/-- `HTMLTextExtractor.handle_endtag`. -/
def handle_endtag (st : HTMLTextExtractor) (tag : String) : HTMLTextExtractor :=
  if st.current_skip = some tag then { st with current_skip := none } else st

/-- `HTMLTextExtractor.handle_data`. -/
def handle_data (st : HTMLTextExtractor) (data : String) : HTMLTextExtractor :=
  if st.current_skip = none then
    let clean := unescape data
    { st with text_parts := st.text_parts ++ [(clean, st.position)],
              position := st.position + clean.length }
  else st

/-- `HTMLParser.feed`: append to the buffer, parse every complete construct,
dispatch the events, keep the unparsed tail buffered. -/
def feed (st : HTMLTextExtractor) (input : String) : HTMLTextExtractor :=
  let buf := st.rawdata ++ input
  let z := lexCore (buf.data.length + 1) buf.data
  let st := { st with rawdata := String.mk z.2 }
  z.1.foldl (fun st ev =>
    match ev with
    | .tagStart n a => handle_starttag st n a
    | .tagEnd n => handle_endtag st n
    | .chars s => handle_data st s) st

/-- `HTMLTextExtractor.get_text`. -/
def get_text (st : HTMLTextExtractor) : String :=
  String.join (st.text_parts.map (fun p => p.1))

/-- `HTMLTextExtractor.reset_state`: resets the subclass fields only.
The inherited `rawdata` buffer is untouched (the source never calls the
base class `reset`). -/
def reset_state (st : HTMLTextExtractor) : HTMLTextExtractor :=
  { st with text_parts := [], urls := [], position := 0, current_skip := none }

/-- Base64 payload characters of the `data:` regex character class. -/
def isB64Char (c : Char) : Bool :=
  isAsciiLetter c || isAsciiDigit c || c == '+' || c == '/' || c == '='

/-- One attempted match of `data:[^;]+;base64,[A-Za-z0-9+/=]+` at the head;
returns the remainder after the match. -/
def tryDataUri (cs : List Char) : Option (List Char) :=
  if "data:".data.isPrefixOf cs then
    let cs1 := cs.drop 5
    let r := cs1.takeWhile (fun c => c != ';')
    if r.isEmpty then none
    else
      let cs2 := cs1.drop r.length
      if ";base64,".data.isPrefixOf cs2 then
        let cs3 := cs2.drop 8
        let b := cs3.takeWhile isB64Char
        if b.isEmpty then none else some (cs3.drop b.length)
      else none
  else none

/-- `re.sub(r'data:[^;]+;base64,[A-Za-z0-9+/=]+', '', text)`: delete
non-overlapping matches left to right. -/
def removeDataUris : Nat → List Char → List Char
  | 0, cs => cs
  | _ + 1, [] => []
  | fuel + 1, c :: rest =>
    match tryDataUri (c :: rest) with
    | some rem => removeDataUris fuel rem
    | none => c :: removeDataUris fuel rest

/-- One attempted match of `https?://[^\s]+` at the head. -/
def tryHttpUrl (cs : List Char) : Option (List Char) :=
  let afterScheme : Option (List Char) :=
    if "https://".data.isPrefixOf cs then some (cs.drop 8)
    else if "http://".data.isPrefixOf cs then some (cs.drop 7)
    else none
  match afterScheme with
  | some cs1 =>
    let r := cs1.takeWhile (fun c => !(Py.wsChar c))
    if r.isEmpty then none else some (cs1.drop r.length)
  | none => none

/-- `re.sub(r'https?://[^\s]+', '', text)`. -/
def removeHttpUrls : Nat → List Char → List Char
  | 0, cs => cs
  | _ + 1, [] => []
  | fuel + 1, c :: rest =>
    match tryHttpUrl (c :: rest) with
    | some rem => removeHttpUrls fuel rem
    | none => c :: removeHttpUrls fuel rest

/-- A character counted as a word character by the regex `\b` boundary. -/
def isWordChar (c : Char) : Bool := isAsciiLetter c || isAsciiDigit c || c == '_'

/-- Greedily consume the `(?:[-'][a-zA-Z]+)*` groups after a letter run;
each returned group includes its leading hyphen/apostrophe. -/
def tryWordGroups : Nat → List Char → List (List Char)
  | 0, _ => []
  | fuel + 1, cs =>
    match cs with
    | c :: d :: rest =>
      if (c == '-' || c.toNat == 39) && isAsciiLetter d then
        let r := (d :: rest).takeWhile isAsciiLetter
        (c :: r) :: tryWordGroups fuel ((d :: rest).drop r.length)
      else []
    | _ => []

/-- One attempted match of `\b[a-zA-Z]+(?:[-'][a-zA-Z]+)*\b` whose head is a
letter at a word boundary: take the maximal letter run and groups, then check
the trailing boundary; if it fails, drop the final group (regex backtracking:
any shorter letter run still ends at a word character, so only dropping a
whole group can restore the boundary). -/
def tryWord (cs : List Char) : Option (List Char × List Char) :=
  let r1 := cs.takeWhile isAsciiLetter
  let cs1 := cs.drop r1.length
  let groups := tryWordGroups (cs1.length + 1) cs1
  let tokFull := r1 ++ groups.flatten
  let remFull := cs.drop tokFull.length
  match remFull.head? with
  | some c =>
    if isWordChar c then
      if groups.isEmpty then none
      else
        let tok := r1 ++ groups.dropLast.flatten
        some (tok, cs.drop tok.length)
    else some (tokFull, remFull)
  | none => some (tokFull, remFull)

/-- `re.finditer` for the word pattern: scan left to right, tracking whether
the previous character was a word character (for the leading `\b`), emitting
`(word, start offset)` and resuming after each match. -/
def scanWords : Nat → List Char → Nat → Bool → List (String × Nat)
  | 0, _, _, _ => []
  | _ + 1, [], _, _ => []
  | fuel + 1, c :: rest, i, prevWord =>
    if isAsciiLetter c && !prevWord then
      match tryWord (c :: rest) with
      | some (tok, rem) =>
        (String.mk tok, i) :: scanWords fuel rem (i + tok.length) true
      | none => scanWords fuel rest (i + 1) (isWordChar c)
    else scanWords fuel rest (i + 1) (isWordChar c)

/-- `tokenizer.tokenize_html`: reset-or-create the parser, feed the content,
strip `data:` blobs and bare `http(s)` URLs from the text, then tokenize
words on the lowered text.  Returns the `(words_with_positions, urls)` pair
and the parser state after the call (the source mutates it in place). -/
def tokenize_html (html_content : String) (parser : Option HTMLTextExtractor) :
    (List (String × Nat) × List String) × HTMLTextExtractor :=
  let p :=
    match parser with
    | none => HTMLTextExtractor.init
    | some p => reset_state p
  let p := feed p html_content
  let text := get_text p
  let urls := p.urls
  let text1 := String.mk (removeDataUris (text.data.length + 1) text.data)
  let text2 := String.mk (removeHttpUrls (text1.data.length + 1) text1.data)
  let lowered := Py.lower text2
  let words := scanWords (lowered.data.length + 1) lowered.data 0 false
  ((words, urls), p)

end Tokenizer

/-! ## `indexer.py`: the two-pass index builder

Pass 1 accumulates, per document, word counts with positions and raw counts
for the raw `urls` returned by the tokenizer, plus the document's maximum
combined raw count.  Pass 2 computes TF-IDF weights over `ℝ` (the model of
Python floats) and accumulates squared weights into the per-document vector
lengths. -/

namespace Indexer

/-- One `word_data[word]` record (raw count and position list). -/
structure WordData where
  count : Nat
  positions : List Nat
deriving DecidableEq

/-- `temp_index[token]`: a dict from document path to its `WordData`. -/
abbrev TempInner := List (String × WordData)

/-- `temp_index`: token → (document → data). -/
abbrev TempIndex := List (String × TempInner)

/-- The accumulator state of pass 1 (`temp_index` and `doc_max_freqs`). -/
structure Pass1State where
  temp_index : TempIndex
  doc_max_freqs : List (String × Nat)
deriving DecidableEq

/-- The `word_data` dict built from one document's `words_with_positions`. -/
def buildWordData (ws : List (String × Nat)) : List (String × WordData) :=
  ws.foldl (fun wd p =>
    match lookupA wd p.1 with
    | none => setA wd p.1 ⟨1, [p.2]⟩
    | some d => setA wd p.1 ⟨d.count + 1, d.positions ++ [p.2]⟩) []

/-- The `url_counts` dict built from one document's raw `urls` list. -/
def buildUrlCounts (urls : List String) : List (String × Nat) :=
  urls.foldl (fun uc url => setA uc url ((lookupA uc url).getD 0 + 1)) []

/-- `max(all_counts) if all_counts else 0`: the maximum raw count across the
document's words and link-targets combined. -/
def maxCombinedFreq (wd : List (String × WordData)) (uc : List (String × Nat)) : Nat :=
  ((wd.map (fun p => p.2.count)) ++ uc.map (fun p => p.2)).foldl Nat.max 0

/-- The pass-1 loop body for one crawled document, given its tokenizer
output. -/
def pass1Doc (st : Pass1State) (file : String) (words_with_positions : List (String × Nat))
    (urls : List String) : Pass1State :=
  let word_data := buildWordData words_with_positions
  let url_counts := buildUrlCounts urls
  let max_freq := maxCombinedFreq word_data url_counts
  let doc_max_freqs := setA st.doc_max_freqs file max_freq
  let temp := word_data.foldl (fun ti p =>
    setA ti p.1 (setA ((lookupA ti p.1).getD []) file p.2)) st.temp_index
  let temp := url_counts.foldl (fun ti p =>
    setA ti p.1 (setA ((lookupA ti p.1).getD []) file ⟨p.2, []⟩)) temp
  { temp_index := temp, doc_max_freqs := doc_max_freqs }

/-- Pass 1 over a whole corpus of tokenizer outputs. -/
def pass1 (docs : List (String × (List (String × Nat) × List String))) : Pass1State :=
  docs.foldl (fun st d => pass1Doc st d.1 d.2.1 d.2.2) ⟨[], []⟩

/-- One posting object of the final index (`doc_objects` element). -/
structure DocObj where
  doc_id : String
  term_freq : Nat
  tf_idf : ℝ
  positions : List Nat

/-- One entry of the final index (`reverse_index[token]`). -/
structure TermEntryR where
  df : Nat
  docs : List DocObj

/-- The final inverted index over `ℝ` weights. -/
abbrev ReverseIndexR := List (String × TermEntryR)

/-- `document_vector_lengths` update: insert 0 when the key is new, then add
(`if doc_path not in ...: ... = 0` followed by `+=`). -/
noncomputable def addToA (l : List (String × ℝ)) (k : String) (x : ℝ) : List (String × ℝ) :=
  match lookupA l k with
  | none => setA l k (0 + x)
  | some v => setA l k (v + x)

/-- Pass 2: for every token (in `temp_index` order), sort its documents by
path, compute `tf`, `idf` and `tf_idf`, emit the posting objects, and
accumulate `tf_idf ** 2` into the vector-length dict. -/
noncomputable def pass2 (total_docs : Nat) (doc_max_freqs : List (String × Nat))
    (temp_index : TempIndex) : ReverseIndexR × List (String × ℝ) :=
  temp_index.foldl (fun (acc : ReverseIndexR × List (String × ℝ)) tok =>
    let sorted_docs := Searcher.pySorted (fun a b => Searcher.strLe a.1 b.1) tok.2
    let df : Nat := tok.2.length
    let z := sorted_docs.foldl (fun (z : List DocObj × List (String × ℝ)) dp =>
      let max_freq := (lookupA doc_max_freqs dp.1).getD 0
      let term_freq : Nat := dp.2.count
      let tf : ℝ := if max_freq > 0 then (term_freq : ℝ) / (max_freq : ℝ) else 0
      let idf : ℝ := Real.logb 2 ((total_docs : ℝ) / ((df : ℝ) + 1)) + 1
      let tf_idf := tf * idf
      (z.1 ++ [⟨dp.1, term_freq, tf_idf, dp.2.positions⟩], addToA z.2 dp.1 (tf_idf ^ 2)))
      ([], acc.2)
    (acc.1 ++ [(tok.1, ⟨df, z.1⟩)], z.2)) ([], [])

/-- Characterization of the posting object pass 2 emits for one document
entry `dp` of a token with document frequency `df` (used to state and prove
the pass-2 lemmas). -/
noncomputable def pass2Obj (total_docs : Nat) (doc_max_freqs : List (String × Nat))
    (df : Nat) (dp : String × WordData) : DocObj :=
  let max_freq := (lookupA doc_max_freqs dp.1).getD 0
  let tf : ℝ := if max_freq > 0 then ((dp.2.count : ℝ) / (max_freq : ℝ)) else 0
  let idf : ℝ := Real.logb 2 ((total_docs : ℝ) / ((df : ℝ) + 1)) + 1
  ⟨dp.1, dp.2.count, tf * idf, dp.2.positions⟩

/-- Characterization of the index entry pass 2 emits for one token. -/
noncomputable def pass2Entry (total_docs : Nat) (doc_max_freqs : List (String × Nat))
    (tok : String × TempInner) : String × TermEntryR :=
  (tok.1, ⟨tok.2.length,
    (Searcher.pySorted (fun a b => Searcher.strLe a.1 b.1) tok.2).map
      (pass2Obj total_docs doc_max_freqs tok.2.length)⟩)

/-- Characterization of the vector-length accumulation pass 2 performs for
one token. -/
noncomputable def pass2Dvl (total_docs : Nat) (doc_max_freqs : List (String × Nat))
    (dvl : List (String × ℝ)) (tok : String × TempInner) : List (String × ℝ) :=
  (Searcher.pySorted (fun a b => Searcher.strLe a.1 b.1) tok.2).foldl
    (fun dvl dp => addToA dvl dp.1
      ((pass2Obj total_docs doc_max_freqs tok.2.length dp).tf_idf ^ 2)) dvl

/-- One entry of the built document map. -/
structure DocVecR where
  vector_length : ℝ

/-- `indexer.build_reverse_index`, starting from the per-document tokenizer
outputs (the loop body after the `tokenize_html` call, plus pass 2 and the
final `document_map` construction). -/
noncomputable def build_reverse_index_tok
    (docs : List (String × (List (String × Nat) × List String))) :
    ReverseIndexR × List (String × DocVecR) :=
  let p1 := pass1 docs
  let total_docs := p1.doc_max_freqs.length
  let z := pass2 total_docs p1.doc_max_freqs p1.temp_index
  (z.1, z.2.map (fun p => (p.1, ⟨Real.sqrt p.2⟩)))

/-- `indexer.build_reverse_index` on raw document text: one
`HTMLTextExtractor` is created and threaded through every `tokenize_html`
call, exactly as the source reuses a single parser object. -/
noncomputable def build_reverse_index (docs : List (String × String)) :
    ReverseIndexR × List (String × DocVecR) :=
  let tokOuts := (docs.foldl
    (fun (acc : List (String × (List (String × Nat) × List String)) × Tokenizer.HTMLTextExtractor) d =>
      let r := Tokenizer.tokenize_html d.2 (some acc.2)
      (acc.1 ++ [(d.1, r.1)], r.2)) ([], Tokenizer.HTMLTextExtractor.init)).1
  build_reverse_index_tok tokOuts

end Indexer

/-! ## `bfs_crawler.py`: link extraction and the BFS crawl

`extract_links_from_html` builds a fresh `LinkExtractor` per call (so only
complete constructs matter), collects raw hrefs from `<a>` start tags, and
normalizes them.  `bfs_crawl` models the generator as a function returning
either the yielded `(path, text)` list or an error: when no start file is
found, Python enqueues `None` and the dequeued `None` raises
`AttributeError` at `current_file.endswith(...)`. -/

namespace BfsCrawler

/-- `bfs_crawler.LinkExtractor` applied to a whole document: the raw `href`
values of `<a>` start tags, in document order. -/
def linkExtractorLinks (html_content : String) : List String :=
  let z := Tokenizer.lexCore (html_content.data.length + 1) html_content.data
  z.1.foldl (fun ls ev =>
    match ev with
    | .tagStart "a" attrs =>
      attrs.foldl (fun ls a =>
        if a.1 = "href" ∧ Tokenizer.truthy a.2 then ls ++ [a.2.getD ""] else ls) ls
    | _ => ls) []

/-- `bfs_crawler.extract_links_from_html`. -/
def extract_links_from_html (html_content current_file : String) : List String :=
  (linkExtractorLinks html_content).foldl (fun acc link =>
    match normalize_path current_file link with
    | some n => acc ++ [n]
    | none => acc) []

/-- A queue entry is `none` exactly when Python's `start_file` variable holds
`None` (no start candidate found). -/
abbrev QEntry := Option String

/-- The BFS while-loop.  `fuel` bounds the iteration count (the real loop
terminates because every enqueue marks its target visited); dequeuing a
`none` entry models `None.endswith` raising `AttributeError`. -/
def bfsLoop (all_files : List String) (content : String → String) :
    Nat → List QEntry → List QEntry → List (String × String) →
    Except Unit (List (String × String))
  | 0, _, _, acc => .ok acc
  | _ + 1, [], _, acc => .ok acc
  | fuel + 1, cur :: queue, visited, acc =>
    match cur with
    | none => .error ()
    | some current_file =>
      if ¬ (Py.endsWith current_file ".html" = true ∨ Py.endsWith current_file ".htm" = true) then
        bfsLoop all_files content fuel queue visited acc
      else
        let html_content := content current_file
        let links := extract_links_from_html html_content current_file
        let z := links.foldl (fun (z : List QEntry × List QEntry) link =>
          if link ∈ all_files ∧ (some link) ∉ z.2 then
            (if Py.endsWith link ".html" = true ∨ Py.endsWith link ".htm" = true then
              (z.1 ++ [some link], z.2 ++ [some link])
            else z)
          else z) (queue, visited)
        bfsLoop all_files content fuel z.1 z.2 (acc ++ [(current_file, html_content)])

/-- `bfs_crawler.bfs_crawl`: pick the start file (with the `index.html` /
`rhf/index.html` fallbacks), then run the BFS loop.  The fuel
`2 * all_files.length + 2` dominates the loop's iteration count: at most
`all_files.length + 1` entries are ever enqueued. -/
def bfs_crawl (all_files : List String) (content : String → String)
    (start_file0 : String := "rhf/index.html") : Except Unit (List (String × String)) :=
  let start_file : Option String :=
    if start_file0 ∈ all_files then some start_file0
    else if "index.html" ∈ all_files then some "index.html"
    else if "rhf/index.html" ∈ all_files then some "rhf/index.html"
    else none
  bfsLoop all_files content (2 * all_files.length + 2) [start_file] [start_file] []

end BfsCrawler

/-! ## `keyword_extractor.py`, `correlation.py`, `gui.SearchGUI.reformulate_query`

`extract_keywords` accumulates matching terms into a Python `set`, whose
iteration order CPython leaves unspecified; it is modelled in first-insertion
order (outer loop over `top_doc_ids`, inner loop over index terms).  No
theorem below depends on that order.  `reformulate_query` is `Except`-valued:
`.error ()` models the `UnboundLocalError` raised by `return reformulated`
when the `if unique_keywords:` branch never assigns `reformulated`. -/

namespace Gui

/-- `keyword_extractor.extract_keywords`. -/
def extract_keywords (top_doc_ids : List String) (idx : Searcher.ReverseIndex) : List String :=
  top_doc_ids.foldl (fun acc doc_id =>
    idx.foldl (fun acc p =>
      if p.2.docs.any (fun d => d.doc_id == doc_id) then
        (if p.1 ∈ acc then acc else acc ++ [p.1])
      else acc) acc) []

/-- `correlation.calculate_correlations`: keyword → summed co-occurrence
score, in `keywords` order (the dict's insertion order). -/
def calculate_correlations (query : String) (keywords : List String)
    (idx : Searcher.ReverseIndex) : List (String × ℚ) :=
  let query_terms := (Py.splitWs query).map (fun t => Py.lower (Py.strip t))
  keywords.map (fun keyword =>
    (keyword, query_terms.foldl (fun (score : ℚ) query_term =>
      match lookupA idx query_term, lookupA idx keyword with
      | some qe, some ke =>
        let query_docs := qe.docs.foldl (fun m d => setA m d.doc_id d) []
        let keyword_docs := ke.docs.foldl (fun m d => setA m d.doc_id d) []
        query_docs.foldl (fun s p =>
          match lookupA keyword_docs p.1 with
          | some kd => s + p.2.tf_idf + kd.tf_idf
          | none => s) score
      | _, _ => score) 0))

/-- `gui.SearchGUI.reformulate_query`, with the result-memory contents
(`self.result_manager.get_top_results()`) passed explicitly.  `.ok none`
models the early `return None` paths; `.error ()` models the
`UnboundLocalError` raised by the final `return reformulated` when
`unique_keywords` is empty. -/
def reformulate_query (idx : Searcher.ReverseIndex) (top_doc_ids : List String)
    (original_query : String) (top_n_keywords : Nat := 3) : Except Unit (Option String) :=
  if top_doc_ids.isEmpty then .ok none
  else
    let keywords := extract_keywords top_doc_ids idx
    if keywords.isEmpty then .ok none
    else
      let correlations := calculate_correlations original_query keywords idx
      if correlations.isEmpty then .ok none
      else
        let sorted_keywords := Searcher.pySorted (fun a b => decide (b.2 ≤ a.2)) correlations
        let top_keywords := (sorted_keywords.take top_n_keywords).map (fun p => p.1)
        let query_terms_set := (Py.splitWs original_query).map (fun t => Py.lower (Py.strip t))
        let unique_keywords := top_keywords.filter (fun kw => Py.lower kw ∉ query_terms_set)
        if unique_keywords.isEmpty then .error ()
        else .ok (some (original_query ++ " " ++ String.intercalate " " unique_keywords))

end Gui

/-! ## Specification-side definitions and fixtures -/

namespace Searcher

/-- Specification-side phrase semantics (from the claim's wording, for
comparison with `check_proximity`): an existential chain over *all*
occurrences — each subsequent word has some occurrence strictly after the
previous matched position and within `proximity` of it, with full choice at
every step rather than committing to the earliest occurrence. -/
def chainExistsB : List (List Nat) → Nat → Nat → Bool
  | [], _, _ => true
  | ps :: rest, current, proximity =>
    ps.any (fun p =>
      decide (current < p) && decide (p ≤ current + proximity) && chainExistsB rest p proximity)

/-- Specification-side phrase match (from the claim's wording): some starting
position of word 1 admits an existential chain through the remaining words. -/
def phraseMatchSpecB (wordPositions : List (List Nat)) (proximity : Nat) : Bool :=
  if wordPositions.length < 2 then true
  else
    match wordPositions with
    | [] => true
    | ps :: rest => ps.any (fun p1 => chainExistsB rest p1 proximity)

end Searcher

namespace Indexer

/-- The sum, over every term entry of the index, of `tf_idf ^ 2` of the
postings whose `doc_id` is `f` (the claim's per-document squared norm). -/
noncomputable def docNormSq (ri : ReverseIndexR) (f : String) : ℝ :=
  (ri.map (fun te =>
    (((te.2.docs.filter (fun o => o.doc_id = f)).map (fun o => o.tf_idf ^ 2)).sum))).sum

end Indexer

namespace Fixtures

/-- A small index: `alpha` posts in `d1` and `d2`, `beta` posts in `d2`. -/
def idxAB : Searcher.ReverseIndex :=
  [("alpha", ⟨2, [⟨"d1", 3, 1, [0, 5]⟩, ⟨"d2", 1, 2, [7]⟩]⟩),
   ("beta", ⟨1, [⟨"d2", 2, 3, [1]⟩]⟩)]

/-- An index for the phrase claims: in document `d`, `wa` occurs at 0,
`wb` at 1 and 100, `wc` at 150. -/
def idxPhrase : Searcher.ReverseIndex :=
  [("wa", ⟨1, [⟨"d", 1, 1, [0]⟩]⟩),
   ("wb", ⟨1, [⟨"d", 2, 1, [1, 100]⟩]⟩),
   ("wc", ⟨1, [⟨"d", 1, 1, [150]⟩]⟩)]

/-- An index for the boolean claims: `xx` posts only in `d1`, `yy` only in
`d2`. -/
def idxXY : Searcher.ReverseIndex :=
  [("xx", ⟨1, [⟨"d1", 1, 0, [0]⟩]⟩),
   ("yy", ⟨1, [⟨"d2", 1, 0, [0]⟩]⟩)]

/-- An index whose only term is `dog`, posted in `d1`. -/
def idxDog : Searcher.ReverseIndex := [("dog", ⟨1, [⟨"d1", 1, 1, [0]⟩]⟩)]

/-- A one-document corpus of tokenizer outputs: document `d` holds the word
`w` once at offset 0 and no links. -/
def docsOne : List (String × (List (String × Nat) × List String)) :=
  [("d", ([("w", 0)], []))]

/-- A document whose only anchor carries an external, fragment-bearing href. -/
def htmlExt : String := "<a href=\"http://ex.com/a#b\"></a>"

/-- Tokenizer-output corpus of the single document `doc.html` containing the
word `hi` and the raw href of `htmlExt` twice. -/
def docsExt : List (String × (List (String × Nat) × List String)) :=
  [("doc.html", ([("hi", 0)], ["http://ex.com/a#b", "http://ex.com/a#b"]))]

end Fixtures

/-! ## Evaluation checks of the embedding -/

example : BfsCrawler.normalize_path "a/b/page.html" "../secret.html" = some "a/secret.html" := by decide
example : BfsCrawler.normalize_path "page.html" "../secret.html" = some "secret.html" := by decide
example : BfsCrawler.normalize_path "a/page.html" "http://x.org/y" = none := by decide
example : BfsCrawler.normalize_path "a/page.html" "/top.html" = some "top.html" := by decide
example : BfsCrawler.normalize_path "a/page.html" "#frag" = none := by decide
example : BfsCrawler.normalize_path "a/page.html" "./b/c.html" = some "a/b/c.html" := by decide


/-! ## Helper lemmas: association lists, folds, sorting, dedup -/

theorem lookupA_mem {α : Type} {l : List (String × α)} {k : String} {v : α}
    (h : lookupA l k = some v) : (k, v) ∈ l := by
  induction l with
  | nil => simp [lookupA] at h
  | cons p rest ih =>
    obtain ⟨k', v'⟩ := p
    by_cases hk : k' = k
    · subst hk
      simp [lookupA] at h
      simp [h]
    · simp only [lookupA, if_neg hk] at h
      exact List.mem_cons_of_mem _ (ih h)

theorem lookupA_setA_self {α : Type} (l : List (String × α)) (k : String) (v : α) :
    lookupA (setA l k v) k = some v := by
  induction l with
  | nil => simp [setA, lookupA]
  | cons p rest ih =>
    obtain ⟨k', v'⟩ := p
    by_cases hk : k' = k
    · subst hk; simp [setA, lookupA]
    · simp only [setA, if_neg hk, lookupA, ih, if_neg hk]

theorem lookupA_setA_ne {α : Type} (l : List (String × α)) {k k' : String} (v : α)
    (h : k ≠ k') : lookupA (setA l k v) k' = lookupA l k' := by
  induction l with
  | nil => simp [setA, lookupA, h]
  | cons p rest ih =>
    obtain ⟨k0, v0⟩ := p
    by_cases hk : k0 = k
    · subst hk; simp [setA, lookupA, h]
    · simp only [setA, if_neg hk, lookupA, ih]

theorem setA_map_fst_of_mem {α : Type} {l : List (String × α)} {k : String} (v : α)
    (h : k ∈ l.map Prod.fst) : (setA l k v).map Prod.fst = l.map Prod.fst := by
  induction l with
  | nil => simp at h
  | cons p rest ih =>
    obtain ⟨k0, v0⟩ := p
    by_cases hk : k0 = k
    · subst hk; simp [setA]
    · have : k ∈ rest.map Prod.fst := by
        simp only [List.map_cons, List.mem_cons] at h
        rcases h with h | h
        · exact absurd h.symm hk
        · exact h
      simp only [setA, if_neg hk, List.map_cons, ih this]

theorem setA_map_fst_of_not_mem {α : Type} {l : List (String × α)} {k : String} (v : α)
    (h : k ∉ l.map Prod.fst) : (setA l k v).map Prod.fst = l.map Prod.fst ++ [k] := by
  induction l with
  | nil => simp [setA]
  | cons p rest ih =>
    obtain ⟨k0, v0⟩ := p
    simp only [List.map_cons, List.mem_cons] at h
    push_neg at h
    have hne : ¬ (k0 = k) := fun hh => h.1 hh.symm
    simp only [setA, if_neg hne, List.map_cons, ih h.2, List.cons_append]

namespace Searcher

theorem mem_insSorted {α : Type} (le : α → α → Bool) (x a : α) (l : List α) :
    a ∈ insSorted le x l ↔ a = x ∨ a ∈ l := by
  induction l with
  | nil => simp [insSorted]
  | cons y ys ih =>
    simp only [insSorted]
    split
    · simp only [List.mem_cons, ih]
      tauto
    · simp only [List.mem_cons]

theorem length_insSorted {α : Type} (le : α → α → Bool) (x : α) (l : List α) :
    (insSorted le x l).length = l.length + 1 := by
  induction l with
  | nil => simp [insSorted]
  | cons y ys ih =>
    simp only [insSorted]
    split <;> simp [ih]

theorem mem_pySorted {α : Type} (le : α → α → Bool) (a : α) (l : List α) :
    a ∈ pySorted le l ↔ a ∈ l := by
  suffices h : ∀ (l : List α) (acc : List α),
      (a ∈ l.foldl (fun acc x => insSorted le x acc) acc ↔ a ∈ acc ∨ a ∈ l) by
    have := h l []
    simpa [pySorted] using this
  intro l
  induction l with
  | nil => simp
  | cons x xs ih =>
    intro acc
    simp only [List.foldl_cons, ih, mem_insSorted, List.mem_cons]
    tauto

theorem length_pySorted {α : Type} (le : α → α → Bool) (l : List α) :
    (pySorted le l).length = l.length := by
  suffices h : ∀ (l : List α) (acc : List α),
      (l.foldl (fun acc x => insSorted le x acc) acc).length = acc.length + l.length by
    have := h l []
    simpa [pySorted] using this
  intro l
  induction l with
  | nil => simp
  | cons x xs ih =>
    intro acc
    simp only [List.foldl_cons, ih, length_insSorted, List.length_cons]
    omega

theorem mem_dedupFirst (a : String) (l : List String) :
    a ∈ dedupFirst l ↔ a ∈ l := by
  suffices h : ∀ (l acc : List String),
      (a ∈ l.foldl (fun acc w => if w ∈ acc then acc else acc ++ [w]) acc ↔ a ∈ acc ∨ a ∈ l) by
    have := h l []
    simpa [dedupFirst] using this
  intro l
  induction l with
  | nil => simp
  | cons x xs ih =>
    intro acc
    simp only [List.foldl_cons]
    split
    · rename_i hx
      simp only [ih, List.mem_cons]
      constructor
      · rintro (h | h)
        · exact Or.inl h
        · exact Or.inr (Or.inr h)
      · rintro (h | h | h)
        · exact Or.inl h
        · exact Or.inl (h ▸ hx)
        · exact Or.inr h
    · simp only [ih, List.mem_append, List.mem_singleton, List.mem_cons]
      tauto

theorem foldl_append_singleton {α β : Type} (g : α → β) (l : List α) (init : List β) :
    l.foldl (fun acc x => acc ++ [g x]) init = init ++ l.map g := by
  induction l generalizing init with
  | nil => simp
  | cons x xs ih =>
    simp only [List.foldl_cons, List.map_cons, ih]
    simp

theorem foldl_append_lists {α β : Type} (g : α → List β) (l : List α) (init : List β) :
    l.foldl (fun acc x => acc ++ g x) init = init ++ (l.map g).flatten := by
  induction l generalizing init with
  | nil => simp
  | cons x xs ih =>
    simp only [List.foldl_cons, List.map_cons, ih, List.flatten_cons]
    simp

end Searcher

/-! ## Searcher membership lemmas -/

namespace Searcher

theorem get_doc_ids_of_lookup_none {idx : ReverseIndex} {t : String}
    (h : lookupA idx t = none) : get_doc_ids idx t = [] := by
  simp [get_doc_ids, h]

theorem mem_get_doc_ids {idx : ReverseIndex} {t d : String} :
    d ∈ get_doc_ids idx t ↔
      ∃ e, lookupA idx t = some e ∧ ∃ doc ∈ e.docs, doc.doc_id = d := by
  unfold get_doc_ids
  cases h : lookupA idx t with
  | none => simp
  | some e => simp [List.mem_map]

theorem get_doc_data_isSome_of_mem {idx : ReverseIndex} {t d : String}
    (h : d ∈ get_doc_ids idx t) : (get_doc_data idx t d).isSome = true := by
  rw [mem_get_doc_ids] at h
  obtain ⟨e, he, doc, hmem, hid⟩ := h
  unfold get_doc_data
  rw [he]
  rw [Option.isSome_iff_exists]
  have : ∃ x, e.docs.find? (fun x => x.doc_id == d) = some x := by
    rw [← Option.isSome_iff_exists, List.find?_isSome]
    exact ⟨doc, hmem, by simp [hid]⟩
  exact this

theorem resultDocIds_single_branch (idx : ReverseIndex) (t : String) :
    resultDocIds (single_branch idx t) = get_doc_ids idx t := by
  unfold single_branch get_doc_ids resultDocIds
  cases lookupA idx t with
  | none => simp
  | some e =>
    simp only [List.map_map]
    exact List.map_congr_left fun a _ => rfl

theorem andResult_doc_id (idx : ReverseIndex) (terms : List String) (doc_id : String) :
    (andResult idx terms doc_id).doc_id = doc_id := rfl

theorem phraseResult_doc_id (idx : ReverseIndex) (words : List String) (P : Nat)
    (doc_id : String) : (phraseResult idx words P doc_id).doc_id = doc_id := rfl

theorem mem_and_branch (idx : ReverseIndex) (terms : List String) (d : String)
    (hlen : 2 ≤ terms.length) :
    d ∈ resultDocIds (and_branch idx terms) ↔ ∀ t ∈ terms, d ∈ get_doc_ids idx t := by
  unfold and_branch
  rw [if_neg (by omega)]
  by_cases hm : terms.filter (fun t => (lookupA idx t).isNone) ≠ []
  · rw [if_pos hm]
    simp only [resultDocIds, List.map_nil]
    obtain ⟨t0, ht0⟩ := List.exists_mem_of_ne_nil _ hm
    rw [List.mem_filter] at ht0
    constructor
    · intro h; exact absurd h (List.not_mem_nil d)
    · intro h
      have := h t0 ht0.1
      rw [mem_get_doc_ids] at this
      obtain ⟨e, he, _⟩ := this
      rw [Option.isNone_iff_eq_none] at ht0
      rw [ht0.2] at he
      exact absurd he (by simp)
  · rw [if_neg hm]
    push_neg at hm
    match terms, hlen with
    | t0 :: trest, _ =>
      dsimp only
      have hkey : ∀ d' : String,
          d' ∈ dedupFirst ((get_doc_ids idx t0).filter
            (fun d' => trest.all (fun t => decide (d' ∈ get_doc_ids idx t)))) ↔
          ∀ t ∈ t0 :: trest, d' ∈ get_doc_ids idx t := by
        intro d'
        rw [mem_dedupFirst, List.mem_filter]
        simp only [List.all_eq_true, decide_eq_true_eq, List.mem_cons]
        constructor
        · rintro ⟨h0, hrest⟩ t ht
          rcases ht with rfl | ht
          · exact h0
          · exact hrest t ht
        · intro h
          exact ⟨h t0 (Or.inl rfl), fun t ht => h t (Or.inr ht)⟩
      by_cases hc : dedupFirst ((get_doc_ids idx t0).filter
          (fun d' => trest.all (fun t => decide (d' ∈ get_doc_ids idx t)))) = []
      · rw [if_pos hc]
        simp only [resultDocIds, List.map_nil]
        constructor
        · intro h; exact absurd h (List.not_mem_nil d)
        · intro h
          have := (hkey d).mpr h
          rw [hc] at this
          exact absurd this (List.not_mem_nil d)
      · rw [if_neg hc]
        simp only [resultDocIds]
        rw [foldl_append_singleton]
        simp only [List.nil_append, List.map_map]
        rw [show (SearchResult.doc_id ∘ andResult idx (t0 :: trest)) = id from
          funext fun x => andResult_doc_id idx (t0 :: trest) x]
        rw [List.map_id, mem_pySorted]
        exact hkey d

end Searcher

namespace Searcher

theorem or_inner_spec (idx : ReverseIndex) (term : String) :
    ∀ (ids : List String) (acc : List SearchResult × List String),
      (∀ i ∈ ids, (get_doc_data idx term i).isSome = true) →
      acc.1.map SearchResult.doc_id = acc.2 →
      ((ids.foldl (orStep idx term) acc).1.map SearchResult.doc_id
          = (ids.foldl (orStep idx term) acc).2
        ∧ ∀ x, x ∈ (ids.foldl (orStep idx term) acc).2 ↔ x ∈ acc.2 ∨ x ∈ ids) := by
  intro ids
  induction ids with
  | nil =>
    intro acc _ hinv
    simp [hinv]
  | cons i rest ih =>
    intro acc hsome hinv
    have hi : (get_doc_data idx term i).isSome = true := hsome i (List.mem_cons_self i rest)
    obtain ⟨doc, hd⟩ := Option.isSome_iff_exists.mp hi
    simp only [List.foldl_cons]
    by_cases hmem : i ∈ acc.2
    · have hstep : orStep idx term acc i = acc := by
        unfold orStep
        rw [if_neg (by simp [hmem])]
      rw [hstep]
      obtain ⟨h1, h2⟩ := ih acc (fun j hj => hsome j (List.mem_cons_of_mem _ hj)) hinv
      refine ⟨h1, fun x => ?_⟩
      rw [h2 x]
      simp only [List.mem_cons]
      constructor
      · rintro (hx | hx)
        · exact Or.inl hx
        · exact Or.inr (Or.inr hx)
      · rintro (hx | hx | hx)
        · exact Or.inl hx
        · exact Or.inl (hx ▸ hmem)
        · exact Or.inr hx
    · have hstep : orStep idx term acc i =
          (acc.1 ++ [SearchResult.term i doc.term_freq doc.tf_idf doc.positions term],
           acc.2 ++ [i]) := by
        unfold orStep
        rw [if_pos (by simp [hmem]), hd]
      rw [hstep]
      have hinv' : (acc.1 ++ [SearchResult.term i doc.term_freq doc.tf_idf doc.positions term]).map
          SearchResult.doc_id = acc.2 ++ [i] := by
        simp [hinv, SearchResult.doc_id]
      obtain ⟨h1, h2⟩ := ih
        (acc.1 ++ [SearchResult.term i doc.term_freq doc.tf_idf doc.positions term],
         acc.2 ++ [i])
        (fun j hj => hsome j (List.mem_cons_of_mem _ hj)) hinv'
      refine ⟨h1, fun x => ?_⟩
      rw [h2 x]
      simp only [List.mem_append, List.mem_singleton, List.mem_cons]
      tauto

theorem or_outer_spec (idx : ReverseIndex) :
    ∀ (terms : List String) (acc : List SearchResult × List String),
      acc.1.map SearchResult.doc_id = acc.2 →
      (((terms.foldl (fun acc term => (get_doc_ids idx term).foldl (orStep idx term) acc) acc).1.map
            SearchResult.doc_id
          = (terms.foldl (fun acc term => (get_doc_ids idx term).foldl (orStep idx term) acc) acc).2)
        ∧ ∀ x, x ∈ (terms.foldl
            (fun acc term => (get_doc_ids idx term).foldl (orStep idx term) acc) acc).2 ↔
            x ∈ acc.2 ∨ ∃ t ∈ terms, x ∈ get_doc_ids idx t) := by
  intro terms
  induction terms with
  | nil =>
    intro acc hinv
    simp [hinv]
  | cons term rest ih =>
    intro acc hinv
    simp only [List.foldl_cons]
    obtain ⟨h1, h2⟩ := or_inner_spec idx term (get_doc_ids idx term) acc
      (fun i hi => get_doc_data_isSome_of_mem hi) hinv
    obtain ⟨g1, g2⟩ := ih _ h1
    refine ⟨g1, fun x => ?_⟩
    rw [g2 x, h2 x]
    simp only [List.mem_cons]
    constructor
    · rintro ((hx | hx) | ⟨t, ht, hx⟩)
      · exact Or.inl hx
      · exact Or.inr ⟨term, Or.inl rfl, hx⟩
      · exact Or.inr ⟨t, Or.inr ht, hx⟩
    · rintro (hx | ⟨t, (rfl | ht), hx⟩)
      · exact Or.inl (Or.inl hx)
      · exact Or.inl (Or.inr hx)
      · exact Or.inr ⟨t, ht, hx⟩

theorem mem_or_branch (idx : ReverseIndex) (terms : List String) (d : String)
    (hlen : 2 ≤ terms.length) :
    d ∈ resultDocIds (or_branch idx terms) ↔ ∃ t ∈ terms, d ∈ get_doc_ids idx t := by
  unfold or_branch
  rw [if_neg (by omega)]
  simp only [resultDocIds]
  obtain ⟨h1, h2⟩ := or_outer_spec idx terms ([], []) (by simp)
  rw [h1, h2 d]
  simp

theorem mem_but_branch (idx : ReverseIndex) (t1 t2 d : String) :
    d ∈ resultDocIds (but_branch idx [t1, t2]) ↔
      d ∈ get_doc_ids idx t1 ∧ d ∉ get_doc_ids idx t2 := by
  unfold but_branch
  dsimp only
  by_cases hn : (lookupA idx t1).isNone = true
  · rw [if_pos hn]
    simp only [resultDocIds, List.map_nil]
    rw [Option.isNone_iff_eq_none] at hn
    rw [get_doc_ids_of_lookup_none hn]
    simp
  · rw [if_neg hn]
    have hkey : ∀ d' : String,
        d' ∈ dedupFirst ((get_doc_ids idx t1).filter
          (fun d' => decide (d' ∉ get_doc_ids idx t2))) ↔
        d' ∈ get_doc_ids idx t1 ∧ d' ∉ get_doc_ids idx t2 := by
      intro d'
      rw [mem_dedupFirst, List.mem_filter]
      simp
    by_cases hc : dedupFirst ((get_doc_ids idx t1).filter
        (fun d' => decide (d' ∉ get_doc_ids idx t2))) = []
    · rw [if_pos hc]
      simp only [resultDocIds, List.map_nil]
      constructor
      · intro h; exact absurd h (List.not_mem_nil d)
      · intro h
        have := (hkey d).mpr h
        rw [hc] at this
        exact absurd this (List.not_mem_nil d)
    · rw [if_neg hc]
      simp only [resultDocIds]
      rw [foldl_append_lists]
      simp only [List.nil_append]
      rw [← hkey d]
      constructor
      · intro h
        rw [List.mem_map] at h
        obtain ⟨r, hr, hrd⟩ := h
        rw [List.mem_flatten] at hr
        obtain ⟨lr, hlr, hrin⟩ := hr
        rw [List.mem_map] at hlr
        obtain ⟨x, hx, rfl⟩ := hlr
        rw [mem_pySorted] at hx
        have hx1 : x ∈ get_doc_ids idx t1 := ((hkey x).mp hx).1
        have hsx := get_doc_data_isSome_of_mem hx1
        obtain ⟨doc, hdoc⟩ := Option.isSome_iff_exists.mp hsx
        unfold butDocResults at hrin
        rw [hdoc] at hrin
        rw [List.mem_singleton] at hrin
        subst hrin
        simp only [SearchResult.doc_id] at hrd
        exact hrd ▸ hx
      · intro h
        have hd1 : d ∈ get_doc_ids idx t1 := ((hkey d).mp h).1
        have hsd := get_doc_data_isSome_of_mem hd1
        obtain ⟨doc, hdoc⟩ := Option.isSome_iff_exists.mp hsd
        rw [List.mem_map]
        refine ⟨SearchResult.term d doc.term_freq doc.tf_idf doc.positions
          (t1 ++ " (but not " ++ t2 ++ ")"), ?_, rfl⟩
        rw [List.mem_flatten]
        refine ⟨butDocResults idx t1 t2 d, ?_, ?_⟩
        · rw [List.mem_map]
          exact ⟨d, (mem_pySorted _ _ _).mpr h, rfl⟩
        · unfold butDocResults
          rw [hdoc]
          simp

end Searcher

namespace Searcher

theorem phraseDocResults_map (idx : ReverseIndex) (words : List String) (P : Nat) (x : String) :
    (phraseDocResults idx words P x).map SearchResult.doc_id =
      if check_proximity (wordPositionsFor idx words x) P then [x] else [] := by
  unfold phraseDocResults
  split <;> simp [phraseResult_doc_id]

theorem mem_phrase_search (idx : ReverseIndex) (words : List String) (P : Nat) (d : String)
    (hall : ∀ w ∈ words, (lookupA idx w).isSome = true)
    (hdoc : ∀ w ∈ words, d ∈ get_doc_ids idx w)
    (hne : words ≠ []) :
    d ∈ resultDocIds (phrase_search idx words P) ↔
      check_proximity (wordPositionsFor idx words d) P = true := by
  obtain ⟨w0, wrest, rfl⟩ : ∃ w0 wrest, words = w0 :: wrest := by
    cases words with
    | nil => exact absurd rfl hne
    | cons a b => exact ⟨a, b, rfl⟩
  unfold phrase_search
  have hmiss : (w0 :: wrest).filter (fun w => (lookupA idx w).isNone) = [] := by
    rw [List.filter_eq_nil_iff]
    intro w hw
    have := hall w hw
    simp [Option.isNone_iff_eq_none]
    rw [Option.isSome_iff_exists] at this
    obtain ⟨v, hv⟩ := this
    simp [hv]
  rw [if_neg (by rw [hmiss]; simp)]
  dsimp only
  have hd0 := hdoc w0 (List.mem_cons_self _ _)
  have hcommon : d ∈ dedupFirst ((get_doc_ids idx w0).filter
      (fun d' => wrest.all (fun w => decide (d' ∈ get_doc_ids idx w)))) := by
    rw [mem_dedupFirst, List.mem_filter]
    refine ⟨hd0, ?_⟩
    rw [List.all_eq_true]
    intro w hw
    exact decide_eq_true (hdoc w (List.mem_cons_of_mem _ hw))
  rw [if_neg (List.ne_nil_of_mem hcommon)]
  have hchar : ∀ x : String,
      x ∈ ((pySorted strLe (dedupFirst ((get_doc_ids idx w0).filter
          (fun d' => wrest.all (fun w => decide (d' ∈ get_doc_ids idx w)))))).foldl
        (fun acc doc_id => acc ++ phraseDocResults idx (w0 :: wrest) P doc_id) []).map
          SearchResult.doc_id ↔
        x ∈ dedupFirst ((get_doc_ids idx w0).filter
          (fun d' => wrest.all (fun w => decide (d' ∈ get_doc_ids idx w)))) ∧
        check_proximity (wordPositionsFor idx (w0 :: wrest) x) P = true := by
    intro x
    rw [foldl_append_lists]
    simp only [List.nil_append]
    constructor
    · intro h
      rw [List.mem_map] at h
      obtain ⟨r, hr, hrd⟩ := h
      rw [List.mem_flatten] at hr
      obtain ⟨lr, hlr, hrin⟩ := hr
      rw [List.mem_map] at hlr
      obtain ⟨y, hy, rfl⟩ := hlr
      rw [mem_pySorted] at hy
      have : r.doc_id ∈ (phraseDocResults idx (w0 :: wrest) P y).map SearchResult.doc_id :=
        List.mem_map_of_mem _ hrin
      rw [phraseDocResults_map] at this
      by_cases hck : check_proximity (wordPositionsFor idx (w0 :: wrest) y) P = true
      · rw [if_pos hck] at this
        rw [List.mem_singleton] at this
        rw [hrd] at this
        subst this
        exact ⟨hy, hck⟩
      · rw [if_neg hck] at this
        exact absurd this (List.not_mem_nil _)
    · rintro ⟨hx, hck⟩
      have hmem : x ∈ (phraseDocResults idx (w0 :: wrest) P x).map SearchResult.doc_id := by
        rw [phraseDocResults_map, if_pos hck]
        exact List.mem_singleton.mpr rfl
      rw [List.mem_map] at hmem
      obtain ⟨r, hrin, hrd⟩ := hmem
      rw [List.mem_map]
      refine ⟨r, ?_, hrd⟩
      rw [List.mem_flatten]
      refine ⟨phraseDocResults idx (w0 :: wrest) P x, ?_, hrin⟩
      rw [List.mem_map]
      exact ⟨x, (mem_pySorted _ _ _).mpr hx, rfl⟩
  set results := (pySorted strLe (dedupFirst ((get_doc_ids idx w0).filter
      (fun d' => wrest.all (fun w => decide (d' ∈ get_doc_ids idx w)))))).foldl
    (fun acc doc_id => acc ++ phraseDocResults idx (w0 :: wrest) P doc_id) [] with hres
  by_cases he : results.isEmpty
  · rw [if_pos he]
    have hrnil : results = [] := List.isEmpty_iff.mp he
    simp only [resultDocIds, List.map_nil]
    constructor
    · intro h; exact absurd h (List.not_mem_nil d)
    · intro hck
      have := (hchar d).mpr ⟨hcommon, hck⟩
      rw [hrnil] at this
      exact absurd this (by simp)
  · rw [if_neg he]
    simp only [resultDocIds]
    rw [hchar d]
    exact ⟨fun h => h.2, fun h => ⟨hcommon, h⟩⟩

theorem findNext_spec {ps : List Nat} {cur P p : Nat} (h : findNext ps cur P = some p) :
    p ∈ ps ∧ cur < p ∧ p ≤ cur + P := by
  induction ps with
  | nil => simp [findNext] at h
  | cons q rest ih =>
    unfold findNext at h
    split at h
    · rename_i hcond
      injection h with h
      subst h
      exact ⟨List.mem_cons_self _ _, hcond.1, hcond.2⟩
    · obtain ⟨hm, h1, h2⟩ := ih h
      exact ⟨List.mem_cons_of_mem _ hm, h1, h2⟩

theorem findNext_mono {ps : List Nat} {cur P P' p : Nat} (hs : List.Sorted (· ≤ ·) ps)
    (hPP : P ≤ P') (h : findNext ps cur P = some p) : findNext ps cur P' = some p := by
  induction ps with
  | nil => simp [findNext] at h
  | cons q rest ih =>
    unfold findNext at h ⊢
    split at h
    · rename_i hcond
      injection h with h
      subst h
      rw [if_pos ⟨hcond.1, by omega⟩]
    · rename_i hcond
      by_cases hq : cur < q
      · obtain ⟨hm, hp1, hp2⟩ := findNext_spec h
        have hqp : q ≤ p := (List.sorted_cons.mp hs).1 p hm
        have hqP : ¬ (q ≤ cur + P) := fun hc => hcond ⟨hq, hc⟩
        omega
      · rw [if_neg (fun hc => hq hc.1)]
        exact ih (List.sorted_cons.mp hs).2 h

theorem chainFrom_mono {lists : List (List Nat)} {cur P P' : Nat}
    (hs : ∀ l ∈ lists, List.Sorted (· ≤ ·) l) (hPP : P ≤ P')
    (h : chainFrom lists cur P = true) : chainFrom lists cur P' = true := by
  induction lists generalizing cur with
  | nil => simp [chainFrom]
  | cons ps rest ih =>
    unfold chainFrom at h ⊢
    cases hf : findNext ps cur P with
    | none => rw [hf] at h; simp at h
    | some p =>
      rw [hf] at h
      rw [findNext_mono (hs ps (List.mem_cons_self _ _)) hPP hf]
      exact ih (fun l hl => hs l (List.mem_cons_of_mem _ hl)) h

theorem check_proximity_mono {wps : List (List Nat)} {P P' : Nat}
    (hs : ∀ l ∈ wps, List.Sorted (· ≤ ·) l) (hPP : P ≤ P')
    (h : check_proximity wps P = true) : check_proximity wps P' = true := by
  unfold check_proximity at h ⊢
  by_cases hlen : wps.length < 2
  · rw [if_pos hlen]
  · rw [if_neg hlen] at h ⊢
    cases wps with
    | nil => simp at hlen
    | cons ps rest =>
      rw [List.any_eq_true] at h ⊢
      obtain ⟨p1, hp1, hc⟩ := h
      exact ⟨p1, hp1, chainFrom_mono (fun l hl => hs l (List.mem_cons_of_mem _ hl)) hPP hc⟩

theorem wordPositionsFor_sorted {idx : ReverseIndex} {words : List String} {d : String}
    (hs : ∀ te ∈ idx, ∀ doc ∈ te.2.docs, List.Sorted (· ≤ ·) doc.positions) :
    ∀ l ∈ wordPositionsFor idx words d, List.Sorted (· ≤ ·) l := by
  intro l hl
  unfold wordPositionsFor at hl
  rw [List.mem_map] at hl
  obtain ⟨w, hw, rfl⟩ := hl
  cases hg : get_doc_data idx w d with
  | none => simp only [hg]; exact List.sorted_nil
  | some doc =>
    simp only [hg]
    unfold get_doc_data at hg
    cases hl2 : lookupA idx w with
    | none => rw [hl2] at hg; simp at hg
    | some e =>
      rw [hl2] at hg
      have he := lookupA_mem hl2
      have hdoc := List.mem_of_find?_eq_some hg
      exact hs (w, e) he doc hdoc

end Searcher

/-! ## Supporting lemma: what a phrase match implies -/

namespace Searcher

theorem phrase_match_necessary {idx : ReverseIndex} {words : List String} {P : Nat} {d : String}
    (h : d ∈ resultDocIds (phrase_search idx words P)) :
    words ≠ [] ∧ (∀ w ∈ words, (lookupA idx w).isSome = true) ∧
      (∀ w ∈ words, d ∈ get_doc_ids idx w) := by
  unfold phrase_search at h
  by_cases hmiss : words.filter (fun w => (lookupA idx w).isNone) ≠ []
  · rw [if_pos hmiss] at h
    simp [resultDocIds] at h
  · rw [if_neg hmiss] at h
    push_neg at hmiss
    have hall : ∀ w ∈ words, (lookupA idx w).isSome = true := by
      intro w hw
      have := List.filter_eq_nil_iff.mp hmiss w hw
      simp only [Bool.not_eq_true, Option.isNone_eq_false_iff] at this
      exact this
    cases words with
    | nil => simp [resultDocIds] at h
    | cons w0 wrest =>
      refine ⟨by simp, hall, ?_⟩
      dsimp only at h
      by_cases hc : dedupFirst ((get_doc_ids idx w0).filter
          (fun d' => wrest.all (fun w => decide (d' ∈ get_doc_ids idx w)))) = []
      · rw [if_pos hc] at h
        simp [resultDocIds] at h
      · rw [if_neg hc] at h
        have hd : d ∈ dedupFirst ((get_doc_ids idx w0).filter
            (fun d' => wrest.all (fun w => decide (d' ∈ get_doc_ids idx w)))) := by
          set results := (pySorted strLe (dedupFirst ((get_doc_ids idx w0).filter
              (fun d' => wrest.all (fun w => decide (d' ∈ get_doc_ids idx w)))))).foldl
            (fun acc doc_id => acc ++ phraseDocResults idx (w0 :: wrest) P doc_id) [] with hres
          have hmem : d ∈ results.map SearchResult.doc_id := by
            by_cases he : results.isEmpty
            · rw [if_pos he] at h
              simp [resultDocIds] at h
            · rw [if_neg he] at h
              exact h
          rw [hres, foldl_append_lists] at hmem
          simp only [List.nil_append] at hmem
          rw [List.mem_map] at hmem
          obtain ⟨r, hr, hrd⟩ := hmem
          rw [List.mem_flatten] at hr
          obtain ⟨lr, hlr, hrin⟩ := hr
          rw [List.mem_map] at hlr
          obtain ⟨y, hy, rfl⟩ := hlr
          rw [mem_pySorted] at hy
          have hmap : r.doc_id ∈ (phraseDocResults idx (w0 :: wrest) P y).map SearchResult.doc_id :=
            List.mem_map_of_mem _ hrin
          rw [phraseDocResults_map] at hmap
          by_cases hck : check_proximity (wordPositionsFor idx (w0 :: wrest) y) P = true
          · rw [if_pos hck] at hmap
            rw [List.mem_singleton] at hmap
            rw [hrd] at hmap
            exact hmap ▸ hy
          · rw [if_neg hck] at hmap
            exact absurd hmap (List.not_mem_nil _)
        rw [mem_dedupFirst, List.mem_filter] at hd
        intro w hw
        rcases List.mem_cons.mp hw with rfl | hw
        · exact hd.1
        · have := hd.2
          rw [List.all_eq_true] at this
          exact decide_eq_true_eq.mp (this w hw)

end Searcher

/-! ## Claim theorems -/

/-- C3 (amended): every link the normalizer accepts yields a path that does
not begin with `..` (the rejection test is the final guard, and step 4's
`lstrip('./')` removes every leading `.` and `/`); however the link
`"../secret.html"` from document `"a/b/page.html"` resolves *inside* the
archive root, to `"a/secret.html"`, and is accepted — not rejected as the
claim asserts. -/
theorem C3_normalizer_no_dotdot :
    (∀ current link r, BfsCrawler.normalize_path current link = some r →
      Py.startsWith r ".." = false) ∧
    BfsCrawler.normalize_path "a/b/page.html" "../secret.html" = some "a/secret.html" := by
  constructor
  · intro current link r h
    simp only [BfsCrawler.normalize_path] at h
    repeat' split at h
    all_goals
      first
        | exact absurd h (fun hh => Option.noConfusion hh)
        | (rename_i hguard
           injection h with h
           subst h
           simpa using hguard)
  · decide

/-- C3 (counterexample): the claim asserts the link `"../secret.html"` from
document `"a/b/page.html"` is rejected (no target); the code resolves it to
`"a/secret.html"` and accepts it. -/
theorem C3_counterexample :
    BfsCrawler.normalize_path "a/b/page.html" "../secret.html" = some "a/secret.html" ∧
    (BfsCrawler.normalize_path "a/b/page.html" "../secret.html").isSome = true := by
  decide

/-- C3 witness: the acceptance guarantee instantiated at a concrete link. -/
theorem C3_witness : Py.startsWith "secret.html" ".." = false :=
  C3_normalizer_no_dotdot.1 "page.html" "../secret.html" "secret.html" (by decide)

/-- C4: when the configured start path is absent and neither `index.html` nor
`rhf/index.html` exists, `bfs_crawl` enqueues Python `None` as the start
entry and the first loop iteration evaluates `None.endswith(...)`, raising
`AttributeError` (modelled as `.error ()`) — it does *not* yield zero
documents and terminate normally as the claim states. -/
theorem C4_crawl_error (all_files : List String) (content : String → String) (start : String)
    (h1 : start ∉ all_files) (h2 : "index.html" ∉ all_files)
    (h3 : "rhf/index.html" ∉ all_files) :
    BfsCrawler.bfs_crawl all_files content start = .error () := by
  simp only [BfsCrawler.bfs_crawl]
  rw [if_neg h1, if_neg h2, if_neg h3]
  rfl

/-- C4 witness: the crawl error on a concrete empty archive. -/
theorem C4_witness : BfsCrawler.bfs_crawl [] (fun _ => "") "start.html" = .error () :=
  C4_crawl_error [] (fun _ => "") "start.html" (by decide) (by decide) (by decide)

/-- C7: with result memory `["d1"]`, an index whose only term `dog` posts in
`d1`, and the query `"cat dog"`, every top correlated keyword (`dog`) is
already in the query, `unique_keywords` is empty, the `if unique_keywords:`
branch never assigns `reformulated`, and `return reformulated` raises
`UnboundLocalError` (modelled `.error ()`) — instead of returning `None`
without raising, as the claim (and the function's own docstring) states. -/
theorem C7_reformulate_unbound :
    Gui.reformulate_query Fixtures.idxDog ["d1"] "cat dog" 3 = .error () ∧
    Gui.reformulate_query Fixtures.idxDog [] "cat dog" 3 = .ok none ∧
    Gui.reformulate_query Fixtures.idxDog ["d1"] "cat" 3 = .ok (some "cat dog") := by
  decide

/-- C10: `reset_state` leaves the inherited `html.parser` input buffer
(`rawdata`) intact, so tokenizing `"c>hello world"` with a parser that
previously consumed the incomplete fragment `"<b"` merges the leftover into
a bogus `<bc>` tag and drops the word `c`, while a fresh parser tokenizes
the same document to `c`, `hello`, `world` — cross-document parser state
leaks into the result, contradicting the claim. -/
theorem C10_parser_state_leak :
    (Tokenizer.tokenize_html "c>hello world" none).1.1
        = [("c", 0), ("hello", 2), ("world", 8)] ∧
    (Tokenizer.tokenize_html "c>hello world"
        (some (Tokenizer.feed Tokenizer.HTMLTextExtractor.init "<b"))).1.1
        = [("hello", 0), ("world", 6)] ∧
    (Tokenizer.tokenize_html "c>hello world"
        (some (Tokenizer.feed Tokenizer.HTMLTextExtractor.init "<b"))).1 ≠
      (Tokenizer.tokenize_html "c>hello world" none).1 := by
  decide

/-- C5 (counterexample): an AND query with a missing required term and a BUT
query with a missing first term both return an *empty result list* with a
message (`([], msg)`), not the distinguished `None` signal the claim
requires: `enhanced_search` keeps `results` as `some []`. -/
theorem C5_counterexample :
    (Searcher.enhanced_search Fixtures.idxAB "alpha and zzz" none).1.isSome = true ∧
    Searcher.resultDocIds (Searcher.enhanced_search Fixtures.idxAB "alpha and zzz" none) = [] ∧
    (Searcher.enhanced_search Fixtures.idxAB "alpha and zzz" none).2
      = "No documents found. Terms not in index: zzz" ∧
    (Searcher.enhanced_search Fixtures.idxAB "zzz but alpha" none).1.isSome = true ∧
    Searcher.resultDocIds (Searcher.enhanced_search Fixtures.idxAB "zzz but alpha" none) = [] ∧
    (Searcher.enhanced_search Fixtures.idxAB "zzz but alpha" none).2
      = "No documents found. First term \x27zzz\x27 not in index" := by
  decide

/-- C5 (amended): an AND query with a required term missing from the index,
and a BUT query whose first term is missing, each return an *empty result
list* paired with an explanatory message (not the `None` signal); the
distinguished `None` signal is reserved for malformed boolean queries, e.g.
a BUT query whose operand count is not exactly two. -/
theorem C5_missing_terms_empty_not_none :
    (∀ (idx : Searcher.ReverseIndex) (terms : List String), 2 ≤ terms.length →
      (∃ t ∈ terms, lookupA idx t = none) →
      (Searcher.and_branch idx terms).1 = some [] ∧
      (Searcher.and_branch idx terms).2 =
        "No documents found. Terms not in index: " ++
          String.intercalate ", " (terms.filter (fun t => (lookupA idx t).isNone))) ∧
    (∀ (idx : Searcher.ReverseIndex) (t1 t2 : String), lookupA idx t1 = none →
      (Searcher.but_branch idx [t1, t2]).1 = some [] ∧
      (Searcher.but_branch idx [t1, t2]).2 =
        "No documents found. First term \x27" ++ t1 ++ "\x27 not in index") ∧
    (∀ (idx : Searcher.ReverseIndex) (terms : List String), terms.length ≠ 2 →
      (Searcher.but_branch idx terms).1 = none ∧
      (Searcher.but_branch idx terms).2 =
        "Invalid BUT query format. Use: \x27term1 but term2\x27") := by
  refine ⟨?_, ?_, ?_⟩
  · intro idx terms hlen hmiss
    have heq : Searcher.and_branch idx terms =
        (some [], "No documents found. Terms not in index: " ++
          String.intercalate ", " (terms.filter (fun t => (lookupA idx t).isNone))) := by
      unfold Searcher.and_branch
      rw [if_neg (by omega)]
      rw [if_pos ?_]
      obtain ⟨t, ht, hnone⟩ := hmiss
      have : t ∈ terms.filter (fun t => (lookupA idx t).isNone) :=
        List.mem_filter.mpr ⟨ht, by simp [hnone]⟩
      exact List.ne_nil_of_mem this
    rw [heq]
    exact ⟨rfl, rfl⟩
  · intro idx t1 t2 hnone
    have heq : Searcher.but_branch idx [t1, t2] =
        (some [], "No documents found. First term \x27" ++ t1 ++ "\x27 not in index") := by
      unfold Searcher.but_branch
      dsimp only
      rw [if_pos (by simp [hnone])]
    rw [heq]
    exact ⟨rfl, rfl⟩
  · intro idx terms hlen
    have heq : Searcher.but_branch idx terms =
        (none, "Invalid BUT query format. Use: \x27term1 but term2\x27") := by
      match terms with
      | [] => rfl
      | [a] => rfl
      | [a, b] => exact absurd rfl hlen
      | a :: b :: c :: r => rfl
    rw [heq]
    exact ⟨rfl, rfl⟩

/-- C5 witness: the AND branch of the amended claim at a concrete index. -/
theorem C5_witness : (Searcher.and_branch Fixtures.idxAB ["alpha", "zzz"]).1 = some [] :=
  (C5_missing_terms_empty_not_none.1 Fixtures.idxAB ["alpha", "zzz"] (by decide)
    ⟨"zzz", by decide, by decide⟩).1

/-- C8 (counterexample): BUT is a set difference and is therefore *not*
order-independent: with `xx` posting only in `d1` and `yy` only in `d2`,
the query `"xx but yy"` returns doc set `[d1]` while `"yy but xx"` returns
`[d2]` — refuting the claim that all three boolean forms are
order-independent under permutation of the listed terms. -/
theorem C8_counterexample :
    Searcher.resultDocIds (Searcher.enhanced_search Fixtures.idxXY "xx but yy" none) = ["d1"] ∧
    Searcher.resultDocIds (Searcher.enhanced_search Fixtures.idxXY "yy but xx" none) = ["d2"] ∧
    Searcher.resultDocIds (Searcher.enhanced_search Fixtures.idxXY "xx but yy" none) ≠
      Searcher.resultDocIds (Searcher.enhanced_search Fixtures.idxXY "yy but xx" none) := by
  decide

/-- C8 (amended): as doc-id sets, AND is the intersection of the single-term
result sets, OR is their union, and BUT (two terms) is the set difference;
AND and OR are order-independent under permutation of the listed terms, but
BUT is not (it is an asymmetric difference, as the counterexample shows). -/
theorem C8_boolean_set_semantics :
    (∀ (idx : Searcher.ReverseIndex) (terms : List String) (d : String), 2 ≤ terms.length →
      (d ∈ Searcher.resultDocIds (Searcher.and_branch idx terms) ↔
        ∀ t ∈ terms, d ∈ Searcher.resultDocIds (Searcher.single_branch idx t))) ∧
    (∀ (idx : Searcher.ReverseIndex) (terms : List String) (d : String), 2 ≤ terms.length →
      (d ∈ Searcher.resultDocIds (Searcher.or_branch idx terms) ↔
        ∃ t ∈ terms, d ∈ Searcher.resultDocIds (Searcher.single_branch idx t))) ∧
    (∀ (idx : Searcher.ReverseIndex) (t1 t2 d : String),
      d ∈ Searcher.resultDocIds (Searcher.but_branch idx [t1, t2]) ↔
        d ∈ Searcher.resultDocIds (Searcher.single_branch idx t1) ∧
        d ∉ Searcher.resultDocIds (Searcher.single_branch idx t2)) ∧
    (∀ (idx : Searcher.ReverseIndex) (terms terms' : List String) (d : String),
      terms.Perm terms' → 2 ≤ terms.length →
      ((d ∈ Searcher.resultDocIds (Searcher.and_branch idx terms) ↔
          d ∈ Searcher.resultDocIds (Searcher.and_branch idx terms')) ∧
       (d ∈ Searcher.resultDocIds (Searcher.or_branch idx terms) ↔
          d ∈ Searcher.resultDocIds (Searcher.or_branch idx terms')))) := by
  refine ⟨?_, ?_, ?_, ?_⟩
  · intro idx terms d hlen
    rw [Searcher.mem_and_branch idx terms d hlen]
    constructor
    · intro h t ht
      rw [Searcher.resultDocIds_single_branch]
      exact h t ht
    · intro h t ht
      have := h t ht
      rwa [Searcher.resultDocIds_single_branch] at this
  · intro idx terms d hlen
    rw [Searcher.mem_or_branch idx terms d hlen]
    constructor
    · rintro ⟨t, ht, hd⟩
      exact ⟨t, ht, by rwa [Searcher.resultDocIds_single_branch]⟩
    · rintro ⟨t, ht, hd⟩
      exact ⟨t, ht, by rwa [Searcher.resultDocIds_single_branch] at hd⟩
  · intro idx t1 t2 d
    rw [Searcher.mem_but_branch idx t1 t2 d,
      Searcher.resultDocIds_single_branch, Searcher.resultDocIds_single_branch]
  · intro idx terms terms' d hp hlen
    have hlen' : 2 ≤ terms'.length := hp.length_eq ▸ hlen
    constructor
    · rw [Searcher.mem_and_branch idx terms d hlen, Searcher.mem_and_branch idx terms' d hlen']
      constructor
      · intro h t ht
        exact h t (hp.mem_iff.mpr ht)
      · intro h t ht
        exact h t (hp.mem_iff.mp ht)
    · rw [Searcher.mem_or_branch idx terms d hlen, Searcher.mem_or_branch idx terms' d hlen']
      constructor
      · rintro ⟨t, ht, hd⟩
        exact ⟨t, hp.mem_iff.mp ht, hd⟩
      · rintro ⟨t, ht, hd⟩
        exact ⟨t, hp.mem_iff.mpr ht, hd⟩

/-- C8 witness: the AND characterization at a concrete index, terms and
document. -/
theorem C8_witness :
    "d2" ∈ Searcher.resultDocIds (Searcher.and_branch Fixtures.idxAB ["alpha", "beta"]) ↔
      ∀ t ∈ ["alpha", "beta"],
        "d2" ∈ Searcher.resultDocIds (Searcher.single_branch Fixtures.idxAB t) :=
  C8_boolean_set_semantics.1 Fixtures.idxAB ["alpha", "beta"] "d2" (by decide)

/-- C2 (counterexample): in `idxPhrase`, document `d` has `wa` at 0, `wb` at
1 and 100, `wc` at 150.  With proximity 100 an existential chain exists
(0 → 100 → 150, each step strictly later and within 100), yet the code's
greedy `check_proximity` commits to `wb`'s earliest occurrence 1 and then
finds no `wc` within 101, so `phrase_search` reports no match — refuting
the claimed "if and only if" with existential-chain semantics. -/
theorem C2_counterexample :
    Searcher.wordPositionsFor Fixtures.idxPhrase ["wa", "wb", "wc"] "d"
        = [[0], [1, 100], [150]] ∧
    Searcher.phraseMatchSpecB [[0], [1, 100], [150]] 100 = true ∧
    (∀ w ∈ ["wa", "wb", "wc"], "d" ∈ Searcher.get_doc_ids Fixtures.idxPhrase w) ∧
    Searcher.resultDocIds
        (Searcher.phrase_search Fixtures.idxPhrase ["wa", "wb", "wc"] 100) = [] := by
  decide

/-- C2 (amended): for a document containing every phrase word (all present
in the index), phrase search reports a match if and only if some occurrence
of word 1 starts a *greedy* chain: for each subsequent phrase word the code
commits to the earliest stored occurrence strictly after the current
position and within the proximity of it (`chainFrom`/`findNext`), trying
every occurrence of word 1 but never revisiting a later occurrence of a
subsequent word. -/
theorem C2_phrase_greedy_first_match (idx : Searcher.ReverseIndex) (words : List String)
    (P : Nat) (d : String)
    (hne : words ≠ [])
    (hall : ∀ w ∈ words, (lookupA idx w).isSome = true)
    (hdoc : ∀ w ∈ words, d ∈ Searcher.get_doc_ids idx w) :
    d ∈ Searcher.resultDocIds (Searcher.phrase_search idx words P) ↔
      ((Searcher.wordPositionsFor idx words d).length < 2 ∨
        ∃ p1 ∈ (Searcher.wordPositionsFor idx words d).headD [],
          Searcher.chainFrom (Searcher.wordPositionsFor idx words d).tail p1 P = true) := by
  rw [Searcher.mem_phrase_search idx words P d hall hdoc hne]
  unfold Searcher.check_proximity
  by_cases hlen : (Searcher.wordPositionsFor idx words d).length < 2
  · rw [if_pos hlen]
    simp [hlen]
  · rw [if_neg hlen]
    cases hw : Searcher.wordPositionsFor idx words d with
    | nil => rw [hw] at hlen; simp at hlen
    | cons ps rest =>
      rw [hw] at hlen
      simp only [List.any_eq_true, List.headD_cons, List.tail_cons]
      constructor
      · rintro ⟨p1, hp1, hc⟩
        exact Or.inr ⟨p1, hp1, hc⟩
      · rintro (h | ⟨p1, hp1, hc⟩)
        · exact absurd h hlen
        · exact ⟨p1, hp1, hc⟩

/-- C2 witness: the greedy characterization at a concrete index where the
phrase does match (proximity 200). -/
theorem C2_witness :
    "d" ∈ Searcher.resultDocIds
        (Searcher.phrase_search Fixtures.idxPhrase ["wa", "wb", "wc"] 200) ↔
      ((Searcher.wordPositionsFor Fixtures.idxPhrase ["wa", "wb", "wc"] "d").length < 2 ∨
        ∃ p1 ∈ (Searcher.wordPositionsFor Fixtures.idxPhrase ["wa", "wb", "wc"] "d").headD [],
          Searcher.chainFrom
            (Searcher.wordPositionsFor Fixtures.idxPhrase ["wa", "wb", "wc"] "d").tail
            p1 200 = true) :=
  C2_phrase_greedy_first_match Fixtures.idxPhrase ["wa", "wb", "wc"] 200 "d"
    (by decide) (by decide) (by decide)

/-- C9: phrase search is monotone in the proximity tolerance.  Given that
every stored position list in the index is ascending, a document reported as
a phrase match at proximity `P` is also reported at every `P' ≥ P`: the
greedy chain always commits to the earliest admissible occurrence, which a
wider window still admits. -/
theorem C9_phrase_proximity_monotone (idx : Searcher.ReverseIndex) (words : List String)
    (P P' : Nat) (d : String)
    (hsorted : ∀ te ∈ idx, ∀ doc ∈ te.2.docs, List.Sorted (· ≤ ·) doc.positions)
    (hPP : P ≤ P')
    (h : d ∈ Searcher.resultDocIds (Searcher.phrase_search idx words P)) :
    d ∈ Searcher.resultDocIds (Searcher.phrase_search idx words P') := by
  obtain ⟨hne, hall, hdoc⟩ := Searcher.phrase_match_necessary h
  rw [Searcher.mem_phrase_search idx words P d hall hdoc hne] at h
  rw [Searcher.mem_phrase_search idx words P' d hall hdoc hne]
  exact Searcher.check_proximity_mono (Searcher.wordPositionsFor_sorted hsorted) hPP h

/-- C9 witness: a concrete match at proximity 50 transported to proximity 60. -/
theorem C9_witness :
    "d" ∈ Searcher.resultDocIds (Searcher.phrase_search Fixtures.idxPhrase ["wb", "wc"] 60) :=
  C9_phrase_proximity_monotone Fixtures.idxPhrase ["wb", "wc"] 50 60 "d"
    (by decide) (by decide) (by decide)

/-! ## Pass-1 lemmas (indexer bookkeeping) -/

theorem mem_setA {α : Type} {l : List (String × α)} {k : String} {v : α} {q : String × α}
    (h : q ∈ setA l k v) : q = (k, v) ∨ q ∈ l := by
  induction l with
  | nil => simpa [setA] using h
  | cons p rest ih =>
    obtain ⟨k0, v0⟩ := p
    by_cases hk : k0 = k
    · subst hk
      rw [show setA ((k0, v0) :: rest) k0 v = (k0, v) :: rest from by simp [setA]] at h
      rcases List.mem_cons.mp h with h1 | h1
      · exact Or.inl h1
      · exact Or.inr (List.mem_cons_of_mem _ h1)
    · rw [show setA ((k0, v0) :: rest) k v = (k0, v0) :: setA rest k v from by
        simp [setA, hk]] at h
      rcases List.mem_cons.mp h with h1 | h1
      · exact Or.inr (h1 ▸ List.mem_cons_self _ _)
      · rcases ih h1 with h2 | h2
        · exact Or.inl h2
        · exact Or.inr (List.mem_cons_of_mem _ h2)

theorem setA_keys_nodup {α : Type} {l : List (String × α)} (k : String) (v : α)
    (h : (l.map Prod.fst).Nodup) : ((setA l k v).map Prod.fst).Nodup := by
  by_cases hk : k ∈ l.map Prod.fst
  · rw [setA_map_fst_of_mem _ hk]; exact h
  · rw [setA_map_fst_of_not_mem _ hk]
    rw [List.nodup_append]
    exact ⟨h, List.nodup_singleton _, by simpa using hk⟩

theorem buildUrlCounts_lookup_gen (u : String) :
    ∀ (urls : List String) (acc : List (String × Nat)),
      lookupA (urls.foldl (fun uc url => setA uc url ((lookupA uc url).getD 0 + 1)) acc) u =
        if u ∈ urls then some ((lookupA acc u).getD 0 + urls.count u) else lookupA acc u := by
  intro urls
  induction urls with
  | nil => intro acc; simp
  | cons url rest ih =>
    intro acc
    simp only [List.foldl_cons]
    by_cases hu : url = u
    · subst hu
      rw [ih]
      by_cases hr : url ∈ rest
      · rw [if_pos hr, if_pos (List.mem_cons_self _ _)]
        rw [lookupA_setA_self]
        simp only [Option.getD_some, List.count_cons_self]
        congr 1
        omega
      · rw [if_neg hr, if_pos (List.mem_cons_self _ _)]
        rw [lookupA_setA_self]
        have hcnt0 : rest.count url = 0 := List.count_eq_zero.mpr hr
        simp only [List.count_cons_self, hcnt0]
    · rw [ih]
      have hlk : lookupA (setA acc url ((lookupA acc url).getD 0 + 1)) u = lookupA acc u :=
        lookupA_setA_ne _ _ hu
      have hne2 : ¬ u = url := fun hh => hu hh.symm
      by_cases hr : u ∈ rest
      · rw [if_pos hr, if_pos (List.mem_cons_of_mem _ hr), hlk]
        have hcnt : (url :: rest).count u = rest.count u := by
          rw [List.count_cons]
          simp [hne2, hu]
        rw [hcnt]
      · rw [if_neg hr, hlk]
        rw [if_neg (by
          simp only [List.mem_cons]
          push_neg
          exact ⟨hne2, hr⟩)]

theorem buildUrlCounts_lookup (urls : List String) (u : String) :
    lookupA (Indexer.buildUrlCounts urls) u =
      if u ∈ urls then some (urls.count u) else none := by
  unfold Indexer.buildUrlCounts
  rw [buildUrlCounts_lookup_gen]
  by_cases hu : u ∈ urls
  · rw [if_pos hu, if_pos hu]
    simp [lookupA]
  · rw [if_neg hu, if_neg hu]
    rfl

theorem buildUrlCounts_keys_nodup (urls : List String) :
    ((Indexer.buildUrlCounts urls).map Prod.fst).Nodup := by
  unfold Indexer.buildUrlCounts
  suffices h : ∀ (l : List String) (acc : List (String × Nat)),
      (acc.map Prod.fst).Nodup →
      ((l.foldl (fun uc url => setA uc url ((lookupA uc url).getD 0 + 1)) acc).map
        Prod.fst).Nodup by
    exact h urls [] (by simp)
  intro l
  induction l with
  | nil => intro acc h; simpa using h
  | cons url rest ih =>
    intro acc h
    simp only [List.foldl_cons]
    exact ih _ (setA_keys_nodup _ _ h)

theorem url_fold_preserve (file : String) :
    ∀ (l : List (String × Nat)) (ti : Indexer.TempIndex) (u : String),
      u ∉ l.map Prod.fst →
      lookupA (l.foldl (fun ti p =>
          setA ti p.1 (setA ((lookupA ti p.1).getD []) file ⟨p.2, []⟩)) ti) u
        = lookupA ti u := by
  intro l
  induction l with
  | nil => intro ti u _; rfl
  | cons p rest ih =>
    intro ti u hu
    simp only [List.map_cons, List.mem_cons] at hu
    push_neg at hu
    simp only [List.foldl_cons]
    rw [ih _ u hu.2]
    exact lookupA_setA_ne _ _ (fun h => hu.1 h.symm)

theorem url_fold_writes (file : String) :
    ∀ (l : List (String × Nat)) (ti : Indexer.TempIndex),
      (l.map Prod.fst).Nodup →
      ∀ u c, (u, c) ∈ l →
      lookupA ((lookupA (l.foldl (fun ti p =>
          setA ti p.1 (setA ((lookupA ti p.1).getD []) file ⟨p.2, []⟩)) ti) u).getD []) file
        = some ⟨c, []⟩ := by
  intro l
  induction l with
  | nil => intro ti _ u c h; simp at h
  | cons p rest ih =>
    intro ti hnd u c hm
    simp only [List.foldl_cons]
    rw [List.map_cons, List.nodup_cons] at hnd
    rcases List.mem_cons.mp hm with heq | hmr
    · have hp : p = (u, c) := heq.symm
      subst hp
      rw [url_fold_preserve file rest _ u hnd.1]
      rw [lookupA_setA_self]
      simp only [Option.getD_some]
      exact lookupA_setA_self _ file _
    · have hkey : p.1 ≠ u := by
        intro hpu
        have : u ∈ rest.map Prod.fst :=
          List.mem_map.mpr ⟨(u, c), hmr, rfl⟩
        rw [← hpu] at this
        exact hnd.1 this
      exact ih _ hnd.2 u c hmr

theorem setA_inner_preserve {file f : String} (hne : f ≠ file) (ti : Indexer.TempIndex)
    (k : String) (v : Indexer.WordData) (inner : List (String × Indexer.WordData)) (tok : String) :
    lookupA ((lookupA (setA ti k (setA inner file v)) tok).getD []) f
      = lookupA ((lookupA ti tok).getD []) f ∨
      (k = tok ∧ lookupA ((lookupA (setA ti k (setA inner file v)) tok).getD []) f
        = lookupA inner f) := by
  by_cases hk : k = tok
  · refine Or.inr ⟨hk, ?_⟩
    subst hk
    rw [lookupA_setA_self]
    simp only [Option.getD_some]
    exact lookupA_setA_ne _ _ (Ne.symm hne)
  · exact Or.inl (by rw [lookupA_setA_ne _ _ hk])

theorem fold_write_preserve {β : Type} (file f : String) (hne : f ≠ file)
    (val : β → Indexer.WordData) :
    ∀ (l : List (String × β)) (ti : Indexer.TempIndex) (tok : String),
      lookupA ((lookupA (l.foldl (fun ti p =>
          setA ti p.1 (setA ((lookupA ti p.1).getD []) file (val p.2))) ti) tok).getD []) f
        = lookupA ((lookupA ti tok).getD []) f := by
  intro l
  induction l with
  | nil => intro ti tok; rfl
  | cons p rest ih =>
    intro ti tok
    simp only [List.foldl_cons]
    rw [ih]
    rcases setA_inner_preserve hne ti p.1 (val p.2) ((lookupA ti p.1).getD []) tok with
      h | ⟨hk, h⟩
    · exact h
    · subst hk
      rw [h]

theorem pass1Doc_inner_preserve {st : Indexer.Pass1State} {file f : String} (hne : f ≠ file)
    (w : List (String × Nat)) (us : List String) (tok : String) :
    lookupA ((lookupA (Indexer.pass1Doc st file w us).temp_index tok).getD []) f
      = lookupA ((lookupA st.temp_index tok).getD []) f :=
  (fold_write_preserve file f hne (fun c => (⟨c, []⟩ : Indexer.WordData))
      (Indexer.buildUrlCounts us) _ tok).trans
    (fold_write_preserve file f hne (fun d => d) (Indexer.buildWordData w) st.temp_index tok)

theorem pass1_tail_preserve (f tok : String) :
    ∀ (l2 : List (String × (List (String × Nat) × List String))) (st : Indexer.Pass1State),
      (∀ d ∈ l2, d.1 ≠ f) →
      lookupA ((lookupA (l2.foldl (fun st d =>
          Indexer.pass1Doc st d.1 d.2.1 d.2.2) st).temp_index tok).getD []) f
        = lookupA ((lookupA st.temp_index tok).getD []) f := by
  intro l2
  induction l2 with
  | nil => intro st _; rfl
  | cons d rest ih =>
    intro st hall
    simp only [List.foldl_cons]
    rw [ih _ (fun x hx => hall x (List.mem_cons_of_mem _ hx))]
    exact pass1Doc_inner_preserve (fun h => hall d (List.mem_cons_self _ _) h.symm) _ _ _

/-- C6 (amended): the URL-terms the indexer enters into `temp_index` are the
*raw* href strings returned by the tokenizer — unresolved and un-normalized —
each carried with an empty position list and a raw count equal to the href's
occurrence count in the document (link normalization is applied only by the
crawler when following links, never to index terms). -/
theorem C6_url_terms_raw (docs : List (String × (List (String × Nat) × List String)))
    (hnd : (docs.map Prod.fst).Nodup) :
    ∀ fd ∈ docs, ∀ u ∈ fd.2.2,
      lookupA ((lookupA (Indexer.pass1 docs).temp_index u).getD []) fd.1
        = some ⟨fd.2.2.count u, []⟩ := by
  intro fd hfd u hu
  obtain ⟨l1, l2, rfl⟩ := List.append_of_mem hfd
  unfold Indexer.pass1
  rw [List.foldl_append, List.foldl_cons]
  have hnotin : fd.1 ∉ l2.map Prod.fst := by
    rw [List.map_append, List.map_cons, List.nodup_append] at hnd
    have h2 := hnd.2.1
    rw [List.nodup_cons] at h2
    exact h2.1
  have hl2 : ∀ d ∈ l2, d.1 ≠ fd.1 := by
    intro d hd hdeq
    exact hnotin (hdeq ▸ List.mem_map.mpr ⟨d, hd, rfl⟩)
  rw [pass1_tail_preserve fd.1 u l2 _ hl2]
  have hmem : (u, fd.2.2.count u) ∈ Indexer.buildUrlCounts fd.2.2 :=
    lookupA_mem (by rw [buildUrlCounts_lookup, if_pos hu])
  exact url_fold_writes fd.1 (Indexer.buildUrlCounts fd.2.2) _
    (buildUrlCounts_keys_nodup _) u _ hmem

/-- C6 (counterexample): a document whose only anchor is
`<a href="http://ex.com/a#b"></a>`.  The tokenizer returns the raw href; the
indexer's pass 1 enters that *raw, external-scheme, fragment-bearing* string
as an index term with an empty position list; the link normalizer rejects the
very same string (`normalize_path` returns no target), so the term is not a
normalized link target — refuting the claim that URL index terms are the
normalized targets and that raw href forms never appear. -/
theorem C6_counterexample :
    (Tokenizer.tokenize_html Fixtures.htmlExt none).1.2 = ["http://ex.com/a#b"] ∧
    lookupA ((lookupA (Indexer.pass1
        [("doc.html", (Tokenizer.tokenize_html Fixtures.htmlExt none).1)]).temp_index
        "http://ex.com/a#b").getD []) "doc.html" = some ⟨1, []⟩ ∧
    (lookupA (Indexer.build_reverse_index_tok
        [("doc.html", (Tokenizer.tokenize_html Fixtures.htmlExt none).1)]).1
        "http://ex.com/a#b").isSome = true ∧
    BfsCrawler.normalize_path "doc.html" "http://ex.com/a#b" = none := by
  decide

/-- C6 witness: the amended theorem at the concrete two-link corpus. -/
theorem C6_witness :
    lookupA ((lookupA (Indexer.pass1 Fixtures.docsExt).temp_index
        "http://ex.com/a#b").getD []) "doc.html" = some ⟨2, []⟩ :=
  C6_url_terms_raw Fixtures.docsExt (by decide)
    ("doc.html", ([("hi", 0)], ["http://ex.com/a#b", "http://ex.com/a#b"]))
    (by decide) "http://ex.com/a#b" (by decide)

/-! ## Pass-2 lemmas (indexer TF-IDF and vector norms) -/

theorem pass2_inner (total_docs : Nat) (doc_max_freqs : List (String × Nat)) (df : Nat) :
    ∀ (l : List (String × Indexer.WordData)) (o : List Indexer.DocObj)
      (dvl : List (String × ℝ)),
      l.foldl (fun (z : List Indexer.DocObj × List (String × ℝ)) dp =>
        let max_freq := (lookupA doc_max_freqs dp.1).getD 0
        let term_freq : Nat := dp.2.count
        let tf : ℝ := if max_freq > 0 then (term_freq : ℝ) / (max_freq : ℝ) else 0
        let idf : ℝ := Real.logb 2 ((total_docs : ℝ) / ((df : ℝ) + 1)) + 1
        let tf_idf := tf * idf
        (z.1 ++ [⟨dp.1, term_freq, tf_idf, dp.2.positions⟩],
         Indexer.addToA z.2 dp.1 (tf_idf ^ 2)))
        (o, dvl)
      = (o ++ l.map (Indexer.pass2Obj total_docs doc_max_freqs df),
         l.foldl (fun dvl dp => Indexer.addToA dvl dp.1
           ((Indexer.pass2Obj total_docs doc_max_freqs df dp).tf_idf ^ 2)) dvl) := by
  intro l
  induction l with
  | nil => intro o dvl; simp
  | cons dp rest ih =>
    intro o dvl
    simp only [List.foldl_cons]
    refine Eq.trans (ih (o ++ [Indexer.pass2Obj total_docs doc_max_freqs df dp])
      (Indexer.addToA dvl dp.1
        ((Indexer.pass2Obj total_docs doc_max_freqs df dp).tf_idf ^ 2))) ?_
    simp [List.append_assoc]

theorem pass2_eq (total_docs : Nat) (doc_max_freqs : List (String × Nat)) :
    ∀ (ti : Indexer.TempIndex) (acc1 : Indexer.ReverseIndexR) (dvl : List (String × ℝ)),
      ti.foldl (fun (acc : Indexer.ReverseIndexR × List (String × ℝ)) tok =>
        let sorted_docs := Searcher.pySorted (fun a b => Searcher.strLe a.1 b.1) tok.2
        let df : Nat := tok.2.length
        let z := sorted_docs.foldl (fun (z : List Indexer.DocObj × List (String × ℝ)) dp =>
          let max_freq := (lookupA doc_max_freqs dp.1).getD 0
          let term_freq : Nat := dp.2.count
          let tf : ℝ := if max_freq > 0 then (term_freq : ℝ) / (max_freq : ℝ) else 0
          let idf : ℝ := Real.logb 2 ((total_docs : ℝ) / ((df : ℝ) + 1)) + 1
          let tf_idf := tf * idf
          (z.1 ++ [⟨dp.1, term_freq, tf_idf, dp.2.positions⟩],
           Indexer.addToA z.2 dp.1 (tf_idf ^ 2)))
          ([], acc.2)
        (acc.1 ++ [(tok.1, ⟨df, z.1⟩)], z.2)) (acc1, dvl)
      = (acc1 ++ ti.map (Indexer.pass2Entry total_docs doc_max_freqs),
         ti.foldl (Indexer.pass2Dvl total_docs doc_max_freqs) dvl) := by
  intro ti
  induction ti with
  | nil => intro acc1 dvl; simp
  | cons tok rest ih =>
    intro acc1 dvl
    simp only [List.foldl_cons]
    have hz := pass2_inner total_docs doc_max_freqs tok.2.length
      (Searcher.pySorted (fun a b => Searcher.strLe a.1 b.1) tok.2) [] dvl
    rw [hz]
    refine Eq.trans (ih (acc1 ++ [(tok.1, ⟨tok.2.length,
      [] ++ (Searcher.pySorted (fun a b => Searcher.strLe a.1 b.1) tok.2).map
        (Indexer.pass2Obj total_docs doc_max_freqs tok.2.length)⟩)])
      ((Searcher.pySorted (fun a b => Searcher.strLe a.1 b.1) tok.2).foldl
        (fun dvl dp => Indexer.addToA dvl dp.1
          ((Indexer.pass2Obj total_docs doc_max_freqs tok.2.length dp).tf_idf ^ 2)) dvl)) ?_
    simp only [List.nil_append, List.map_cons, List.foldl_cons, List.append_assoc,
      List.cons_append, List.singleton_append]
    rfl

theorem pass2_spec (total_docs : Nat) (doc_max_freqs : List (String × Nat))
    (ti : Indexer.TempIndex) :
    Indexer.pass2 total_docs doc_max_freqs ti
      = (ti.map (Indexer.pass2Entry total_docs doc_max_freqs),
         ti.foldl (Indexer.pass2Dvl total_docs doc_max_freqs) []) := by
  have h := pass2_eq total_docs doc_max_freqs ti [] []
  rw [List.nil_append] at h
  exact h

theorem addToA_lookup_self (l : List (String × ℝ)) (k : String) (x : ℝ) :
    lookupA (Indexer.addToA l k x) k = some ((lookupA l k).getD 0 + x) := by
  unfold Indexer.addToA
  cases h : lookupA l k with
  | none => simp [lookupA_setA_self]
  | some v => simp [lookupA_setA_self]

theorem addToA_lookup_ne (l : List (String × ℝ)) {k f : String} (x : ℝ) (h : k ≠ f) :
    lookupA (Indexer.addToA l k x) f = lookupA l f := by
  unfold Indexer.addToA
  cases hl : lookupA l k <;> simp [lookupA_setA_ne _ _ h]

theorem addToA_fold_val (f : String) (sq : String × Indexer.WordData → ℝ) :
    ∀ (l : List (String × Indexer.WordData)) (dvl : List (String × ℝ)),
      (lookupA (l.foldl (fun dvl dp => Indexer.addToA dvl dp.1 (sq dp)) dvl) f).getD 0
        = (lookupA dvl f).getD 0 + ((l.filter (fun dp => dp.1 = f)).map sq).sum := by
  intro l
  induction l with
  | nil => intro dvl; simp
  | cons dp rest ih =>
    intro dvl
    simp only [List.foldl_cons, List.filter_cons]
    by_cases hd : dp.1 = f
    · rw [if_pos (by simpa using hd)]
      rw [ih]
      rw [← hd, addToA_lookup_self]
      simp only [Option.getD_some, List.map_cons, List.sum_cons]
      ring
    · rw [if_neg (by simpa using hd)]
      rw [ih, addToA_lookup_ne _ _ hd]

theorem pass2Dvl_val (total_docs : Nat) (doc_max_freqs : List (String × Nat))
    (tok : String × Indexer.TempInner) (f : String) (dvl : List (String × ℝ)) :
    (lookupA (Indexer.pass2Dvl total_docs doc_max_freqs dvl tok) f).getD 0
      = (lookupA dvl f).getD 0 +
        (((Searcher.pySorted (fun a b => Searcher.strLe a.1 b.1) tok.2).filter
            (fun dp => dp.1 = f)).map
          (fun dp => (Indexer.pass2Obj total_docs doc_max_freqs tok.2.length dp).tf_idf ^ 2)).sum :=
  addToA_fold_val f _ _ dvl

theorem pass2_dvl_total (total_docs : Nat) (doc_max_freqs : List (String × Nat)) (f : String) :
    ∀ (ti : Indexer.TempIndex) (dvl : List (String × ℝ)),
      (lookupA (ti.foldl (Indexer.pass2Dvl total_docs doc_max_freqs) dvl) f).getD 0
        = (lookupA dvl f).getD 0 +
          (ti.map (fun tok =>
            (((Searcher.pySorted (fun a b => Searcher.strLe a.1 b.1) tok.2).filter
                (fun dp => dp.1 = f)).map
              (fun dp =>
                (Indexer.pass2Obj total_docs doc_max_freqs tok.2.length dp).tf_idf ^ 2)).sum)).sum := by
  intro ti
  induction ti with
  | nil => intro dvl; simp
  | cons tok rest ih =>
    intro dvl
    simp only [List.foldl_cons, List.map_cons, List.sum_cons]
    rw [ih, pass2Dvl_val]
    ring

theorem lookupA_map_snd {α β : Type} (g : α → β) :
    ∀ (l : List (String × α)) (k : String),
      lookupA (l.map (fun p => (p.1, g p.2))) k = (lookupA l k).map g := by
  intro l
  induction l with
  | nil => intro k; rfl
  | cons p rest ih =>
    intro k
    by_cases h : p.1 = k
    · simp [lookupA, h]
    · simp [lookupA, h, ih]

theorem docNormSq_map_entries (total_docs : Nat) (doc_max_freqs : List (String × Nat))
    (ti : Indexer.TempIndex) (f : String) :
    Indexer.docNormSq (ti.map (Indexer.pass2Entry total_docs doc_max_freqs)) f
      = (ti.map (fun tok =>
          (((Searcher.pySorted (fun a b => Searcher.strLe a.1 b.1) tok.2).filter
              (fun dp => dp.1 = f)).map
            (fun dp =>
              (Indexer.pass2Obj total_docs doc_max_freqs tok.2.length dp).tf_idf ^ 2)).sum)).sum := by
  unfold Indexer.docNormSq
  rw [List.map_map]
  congr 1
  apply List.map_congr_left
  intro tok _
  show ((((Searcher.pySorted (fun a b => Searcher.strLe a.1 b.1) tok.2).map
      (Indexer.pass2Obj total_docs doc_max_freqs tok.2.length)).filter
        (fun o => o.doc_id = f)).map (fun o => o.tf_idf ^ 2)).sum = _
  rw [List.filter_map, List.map_map]
  congr 2

theorem pass1Doc_dmf_lookup (st : Indexer.Pass1State) (file : String)
    (w : List (String × Nat)) (us : List String) :
    lookupA (Indexer.pass1Doc st file w us).doc_max_freqs file
      = some (Indexer.maxCombinedFreq (Indexer.buildWordData w) (Indexer.buildUrlCounts us)) := by
  unfold Indexer.pass1Doc
  exact lookupA_setA_self _ _ _

theorem pass1Doc_dmf_ne (st : Indexer.Pass1State) {file f : String}
    (w : List (String × Nat)) (us : List String) (h : f ≠ file) :
    lookupA (Indexer.pass1Doc st file w us).doc_max_freqs f
      = lookupA st.doc_max_freqs f := by
  unfold Indexer.pass1Doc
  exact lookupA_setA_ne _ _ (Ne.symm h)

theorem pass1_dmf_tail_preserve (f : String) :
    ∀ (l2 : List (String × (List (String × Nat) × List String))) (st : Indexer.Pass1State),
      (∀ d ∈ l2, d.1 ≠ f) →
      lookupA (l2.foldl (fun st d =>
          Indexer.pass1Doc st d.1 d.2.1 d.2.2) st).doc_max_freqs f
        = lookupA st.doc_max_freqs f := by
  intro l2
  induction l2 with
  | nil => intro st _; rfl
  | cons d rest ih =>
    intro st hall
    simp only [List.foldl_cons]
    rw [ih _ (fun x hx => hall x (List.mem_cons_of_mem _ hx))]
    exact pass1Doc_dmf_ne st _ _ (fun h => hall d (List.mem_cons_self _ _) h.symm)

theorem pass1_maxfreq_lookup (docs : List (String × (List (String × Nat) × List String)))
    (hnd : (docs.map Prod.fst).Nodup) {fd : String × (List (String × Nat) × List String)}
    (hfd : fd ∈ docs) :
    lookupA (Indexer.pass1 docs).doc_max_freqs fd.1
      = some (Indexer.maxCombinedFreq (Indexer.buildWordData fd.2.1)
          (Indexer.buildUrlCounts fd.2.2)) := by
  obtain ⟨l1, l2, rfl⟩ := List.append_of_mem hfd
  unfold Indexer.pass1
  rw [List.foldl_append, List.foldl_cons]
  have hnotin : fd.1 ∉ l2.map Prod.fst := by
    rw [List.map_append, List.map_cons, List.nodup_append] at hnd
    have h2 := hnd.2.1
    rw [List.nodup_cons] at h2
    exact h2.1
  have hl2 : ∀ d ∈ l2, d.1 ≠ fd.1 := by
    intro d hd hdeq
    exact hnotin (hdeq ▸ List.mem_map.mpr ⟨d, hd, rfl⟩)
  rw [pass1_dmf_tail_preserve fd.1 l2 _ hl2]
  exact pass1Doc_dmf_lookup _ fd.1 fd.2.1 fd.2.2

theorem pass1_dmf_keys :
    ∀ (docs : List (String × (List (String × Nat) × List String))) (st : Indexer.Pass1State),
      (st.doc_max_freqs.map Prod.fst ++ docs.map Prod.fst).Nodup →
      (docs.foldl (fun st d =>
          Indexer.pass1Doc st d.1 d.2.1 d.2.2) st).doc_max_freqs.map Prod.fst
        = st.doc_max_freqs.map Prod.fst ++ docs.map Prod.fst := by
  intro docs
  induction docs with
  | nil => intro st _; simp
  | cons d rest ih =>
    intro st hnd
    simp only [List.foldl_cons, List.map_cons]
    have hd_notin : d.1 ∉ st.doc_max_freqs.map Prod.fst := by
      intro hmem
      rw [List.map_cons, List.nodup_append] at hnd
      exact absurd (List.mem_cons_self _ _) (hnd.2.2 hmem)
    have hdmf : (Indexer.pass1Doc st d.1 d.2.1 d.2.2).doc_max_freqs.map Prod.fst
        = st.doc_max_freqs.map Prod.fst ++ [d.1] := by
      unfold Indexer.pass1Doc
      exact setA_map_fst_of_not_mem _ hd_notin
    have hres := ih (Indexer.pass1Doc st d.1 d.2.1 d.2.2) (by
      rw [hdmf, List.append_assoc, List.singleton_append]
      rw [List.map_cons] at hnd
      exact hnd)
    rw [hres, hdmf, List.append_assoc, List.singleton_append]

theorem pass1_dmf_len (docs : List (String × (List (String × Nat) × List String)))
    (hnd : (docs.map Prod.fst).Nodup) :
    (Indexer.pass1 docs).doc_max_freqs.length = docs.length := by
  unfold Indexer.pass1
  have h := pass1_dmf_keys docs ⟨[], []⟩ (by simpa using hnd)
  have hlen := congrArg List.length h
  simpa using hlen

/-- C1: over any corpus of tokenizer outputs with distinct document paths,
the built index satisfies the claim's TF-IDF equations: every term entry's
stored `df` is its posting count; every posting's `tf_idf` equals
`tf * idf` with `tf = raw_count / doc_max_freq` (0 when `doc_max_freq` is 0,
`doc_max_freq` being the maximum raw count over the document's words and
link-targets combined) and `idf = log2(total_docs / (df + 1)) + 1`; and every
vector norm stored in the document map satisfies
`vectorNorm(D)^2 = sum over terms t of tf_idf(t,D)^2` (exactly, over `ℝ`). -/
theorem C1_indexer_tfidf_and_norms
    (docs : List (String × (List (String × Nat) × List String)))
    (hnd : (docs.map Prod.fst).Nodup) :
    (∀ te ∈ (Indexer.build_reverse_index_tok docs).1, te.2.df = te.2.docs.length) ∧
    (∀ fd ∈ docs, ∀ te ∈ (Indexer.build_reverse_index_tok docs).1,
      ∀ obj ∈ te.2.docs, obj.doc_id = fd.1 →
      obj.tf_idf =
        (if 0 < Indexer.maxCombinedFreq (Indexer.buildWordData fd.2.1)
            (Indexer.buildUrlCounts fd.2.2) then
          (obj.term_freq : ℝ) / (Indexer.maxCombinedFreq (Indexer.buildWordData fd.2.1)
            (Indexer.buildUrlCounts fd.2.2) : ℝ)
        else 0) *
        (Real.logb 2 ((docs.length : ℝ) / ((te.2.df : ℝ) + 1)) + 1)) ∧
    (∀ f, (lookupA (Indexer.build_reverse_index_tok docs).2 f).isSome = true →
      ∃ v, lookupA (Indexer.build_reverse_index_tok docs).2 f = some v ∧
        v.vector_length ^ 2 = Indexer.docNormSq (Indexer.build_reverse_index_tok docs).1 f) := by
  have hb : Indexer.build_reverse_index_tok docs
      = ((Indexer.pass1 docs).temp_index.map
            (Indexer.pass2Entry (Indexer.pass1 docs).doc_max_freqs.length
              (Indexer.pass1 docs).doc_max_freqs),
         ((Indexer.pass1 docs).temp_index.foldl
            (Indexer.pass2Dvl (Indexer.pass1 docs).doc_max_freqs.length
              (Indexer.pass1 docs).doc_max_freqs) []).map
           (fun p => (p.1, ⟨Real.sqrt p.2⟩))) := by
    unfold Indexer.build_reverse_index_tok
    dsimp only
    rw [pass2_spec]
  rw [hb]
  dsimp only
  refine ⟨?_, ?_, ?_⟩
  · intro te hte
    rw [List.mem_map] at hte
    obtain ⟨tok, htok, rfl⟩ := hte
    show tok.2.length = _
    rw [show (Indexer.pass2Entry (Indexer.pass1 docs).doc_max_freqs.length
        (Indexer.pass1 docs).doc_max_freqs tok).2.docs
        = (Searcher.pySorted (fun a b => Searcher.strLe a.1 b.1) tok.2).map
            (Indexer.pass2Obj (Indexer.pass1 docs).doc_max_freqs.length
              (Indexer.pass1 docs).doc_max_freqs tok.2.length) from rfl]
    rw [List.length_map, Searcher.length_pySorted]
  · intro fd hfd te hte obj hobj hid
    rw [List.mem_map] at hte
    obtain ⟨tok, htok, rfl⟩ := hte
    rw [show (Indexer.pass2Entry (Indexer.pass1 docs).doc_max_freqs.length
        (Indexer.pass1 docs).doc_max_freqs tok).2.docs
        = (Searcher.pySorted (fun a b => Searcher.strLe a.1 b.1) tok.2).map
            (Indexer.pass2Obj (Indexer.pass1 docs).doc_max_freqs.length
              (Indexer.pass1 docs).doc_max_freqs tok.2.length) from rfl,
      List.mem_map] at hobj
    obtain ⟨dp, hdp, rfl⟩ := hobj
    have hdid : dp.1 = fd.1 := hid
    have hmf := pass1_maxfreq_lookup docs hnd hfd
    have hlen := pass1_dmf_len docs hnd
    show (if 0 < (lookupA (Indexer.pass1 docs).doc_max_freqs dp.1).getD 0 then
        (dp.2.count : ℝ) / ((lookupA (Indexer.pass1 docs).doc_max_freqs dp.1).getD 0 : ℝ)
      else 0) *
      (Real.logb 2 (((Indexer.pass1 docs).doc_max_freqs.length : ℝ)
        / ((tok.2.length : ℝ) + 1)) + 1) = _
    rw [hdid, hmf, hlen]
    rfl
  · intro f hf
    have hm : lookupA (((Indexer.pass1 docs).temp_index.foldl
        (Indexer.pass2Dvl (Indexer.pass1 docs).doc_max_freqs.length
          (Indexer.pass1 docs).doc_max_freqs) []).map
        (fun p => (p.1, (⟨Real.sqrt p.2⟩ : Indexer.DocVecR)))) f
        = (lookupA ((Indexer.pass1 docs).temp_index.foldl
            (Indexer.pass2Dvl (Indexer.pass1 docs).doc_max_freqs.length
              (Indexer.pass1 docs).doc_max_freqs) []) f).map
          (fun x => (⟨Real.sqrt x⟩ : Indexer.DocVecR)) :=
      lookupA_map_snd (fun x => (⟨Real.sqrt x⟩ : Indexer.DocVecR)) _ f
    rw [hm] at hf ⊢
    rw [Option.isSome_map'] at hf
    obtain ⟨x, hx⟩ := Option.isSome_iff_exists.mp hf
    rw [hx]
    refine ⟨⟨Real.sqrt x⟩, rfl, ?_⟩
    have hval : x = (lookupA ((Indexer.pass1 docs).temp_index.foldl
        (Indexer.pass2Dvl (Indexer.pass1 docs).doc_max_freqs.length
          (Indexer.pass1 docs).doc_max_freqs) []) f).getD 0 := by
      rw [hx]
      rfl
    have htot := pass2_dvl_total (Indexer.pass1 docs).doc_max_freqs.length
      (Indexer.pass1 docs).doc_max_freqs f (Indexer.pass1 docs).temp_index []
    have hnn : 0 ≤ x := by
      rw [hval, htot]
      simp only [lookupA, Option.getD_none, zero_add]
      apply List.sum_nonneg
      intro y hy
      rw [List.mem_map] at hy
      obtain ⟨tok, _, rfl⟩ := hy
      apply List.sum_nonneg
      intro z hz
      rw [List.mem_map] at hz
      obtain ⟨dp, _, rfl⟩ := hz
      exact sq_nonneg _
    show Real.sqrt x ^ 2 = _
    rw [Real.sq_sqrt hnn, hval, htot, docNormSq_map_entries]
    simp only [lookupA, Option.getD_none, zero_add]

/-- C1 witness: the vector-norm identity at the one-document corpus
`docsOne`. -/
theorem C1_witness :
    ∃ v, lookupA (Indexer.build_reverse_index_tok Fixtures.docsOne).2 "d" = some v ∧
      v.vector_length ^ 2
        = Indexer.docNormSq (Indexer.build_reverse_index_tok Fixtures.docsOne).1 "d" :=
  (C1_indexer_tfidf_and_norms Fixtures.docsOne (by decide)).2.2 "d" (by decide)
